import Mathlib

/-!
Verification of the bounded-execution supervisor of this repository.

The development shallowly embeds the process-management utilities of
`src/patches/mledojo/utils.py` (`get_all_child_processes`,
`terminate_process_and_children`, `timeout_handler`) and the step-budgeted
agent runners of `src/main.py` (`run_mle_agent`, `run_openai_agent`,
`run_dummy_agent`).

Conventions of the embedding:
* The OS process table is a list of `Proc` records (pid, parent pid, alive
  flag, and whether the process ignores the graceful terminate signal).
  "Not alive" models "pid absent from the process table": `psutil`
  operations on such a pid raise `NoSuchProcess`.
* A graceful terminate delivered to a non-resisting live process has made
  it exit by the time the grace wait observes it; a forced kill always
  removes the process.  `psutil.Process.wait(timeout)` on a process that is
  still alive raises `psutil.TimeoutExpired`; `psutil.wait_procs` never
  raises.
* Every psutil signalling call is recorded in an event trace (`PEvent`),
  so theorems can talk about which process received which signal and in
  which order.
* The runner loops are embedded as fuel recursion (fuel = remaining loop
  iterations of `range(max_steps)`); each call of `time.time()` consumes
  the next index of an arbitrary clock stream `clock : Nat → Int`.
  Agent attribute lookups that Python performs with plain attribute access
  are modelled with `Option`: `none` means the attribute is absent and a
  plain access raises `AttributeError`.
-/

namespace MleRL

/-- One entry of the OS process table: process id, parent process id,
whether the process is currently alive (present in the table), and whether
it ignores the graceful terminate signal. -/
structure Proc where
  pid : Nat
  ppid : Nat
  alive : Bool
  resistsTerm : Bool
deriving DecidableEq, Repr

/-- The OS process table. -/
abbrev PTable := List Proc

/-- `pid` is present (alive) in the process table.  `psutil.Process(pid)`
raises `NoSuchProcess` exactly when this is false. -/
def isAlive (t : PTable) (pid : Nat) : Bool :=
  t.any fun p => p.pid == pid && p.alive

/-- Remove `pid` from the process table (mark it dead). -/
def setDead (t : PTable) (pid : Nat) : PTable :=
  t.map fun p => if p.pid == pid then { p with alive := false } else p

/-- `pid` is alive and ignores the graceful terminate signal. -/
def resists (t : PTable) (pid : Nat) : Bool :=
  t.any fun p => p.pid == pid && p.alive && p.resistsTerm

/-- Effect of `Process.terminate()` on the table: a live process that does
not resist the signal has exited by the time anyone next observes the
table; a resisting or already-gone process is unaffected (`NoSuchProcess`
is swallowed by the callers we model). -/
def sendTerm (t : PTable) (pid : Nat) : PTable :=
  if isAlive t pid && !resists t pid then setDead t pid else t

/-- Effect of `Process.kill()` on the table: the process is removed
unconditionally (`NoSuchProcess` on an already-gone pid is swallowed by
the callers we model). -/
def sendKill (t : PTable) (pid : Nat) : PTable :=
  setDead t pid

/-- Live processes whose parent is in `roots` (one level of
`Process.children`). -/
def childPids (t : PTable) (roots : List Nat) : List Nat :=
  (t.filter fun p => p.alive && decide (p.ppid ∈ roots)).map fun p => p.pid

/-- Breadth-first collection of live descendants, bounded by fuel. -/
def descendantsAux (t : PTable) : Nat → List Nat → List Nat
  | 0, _ => []
  | fuel + 1, roots =>
    let kids := childPids t roots
    kids ++ descendantsAux t fuel kids

/-- `Process(root).children(recursive=True)`: the point-in-time snapshot of
all live descendants of `root`. -/
def descendants (t : PTable) (root : Nat) : List Nat :=
  descendantsAux t t.length [root]

/-- Exceptions of the embedded Python code. -/
inductive PyErr where
  /-- `psutil.TimeoutExpired`, raised by `Process.wait(timeout)`. -/
  | timeoutExpired
  /-- The `TimeoutError` raised by `timeout_handler` on expiry. -/
  | timeoutError
  /-- `psutil.NoSuchProcess`. -/
  | noSuchProcess
  /-- `AttributeError` for the named missing attribute. -/
  | attributeError (attr : String)
  /-- Any exception raised by the supervised unit of work. -/
  | userExc (code : Nat)
deriving DecidableEq, Repr

/-- Observable psutil calls made by the process-management code. -/
inductive PEvent where
  /-- `proc.terminate()` attempted on `pid`. -/
  | term (pid : Nat)
  /-- `proc.kill()` attempted on `pid`. -/
  | kill (pid : Nat)
  /-- `psutil.wait_procs(children, timeout=3)`: the bounded grace wait. -/
  | graceWait
  /-- `Process(pid).wait(3)`: bounded wait on a single process. -/
  | waitOne (pid : Nat)
deriving DecidableEq, Repr

/-- The process a signalling event is aimed at (`none` for the grace
wait, which targets no single process). -/
def PEvent.target : PEvent → Option Nat
  | .term p => some p
  | .kill p => some p
  | .waitOne p => some p
  | .graceWait => none

/-- `get_all_child_processes` (src/patches/mledojo/utils.py, lines
205-219): returns the recursive children of `parent_pid`, or `[]` when
`psutil.Process(parent_pid)` raises `NoSuchProcess`. -/
def get_all_child_processes (t : PTable) (parent_pid : Nat) : List Nat :=
  if isAlive t parent_pid then descendants t parent_pid else []

/-- `terminate_process_and_children` (src/patches/mledojo/utils.py, lines
222-261).  Returns the table after the call, the trace of psutil calls
made, and the call's outcome (`Except.error` = an uncaught exception
escaping the function).

Faithful points of the embedding:
* `psutil.Process(pid)` raising `NoSuchProcess` is caught by the outer
  `except psutil.NoSuchProcess: pass`, giving the silent no-op branch.
* The children are terminated, then `wait_procs(children, timeout=3)`
  splits off the ones still alive, which are killed.
* The parent is terminated, then `parent.wait(3)` is called.  When the
  parent is still alive at that point (it resisted the terminate signal),
  `wait` raises `psutil.TimeoutExpired`, which the function does NOT
  catch (only `NoSuchProcess` is), so the call errors out.  Consequently
  the final `if parent.is_running(): parent.kill()` of the source is
  unreachable: either `wait` returned (parent already exited, so
  `is_running()` is false) or `wait` raised. -/
def terminate_process_and_children (t : PTable) (pid : Nat) :
    PTable × List PEvent × Except PyErr Unit :=
  if isAlive t pid then
    let children := descendants t pid
    let t1 := children.foldl sendTerm t
    let still_alive := children.filter fun c => isAlive t1 c
    let t2 := still_alive.foldl sendKill t1
    let t3 := sendTerm t2 pid
    let evs := children.map PEvent.term ++
      PEvent.graceWait :: still_alive.map PEvent.kill ++
      [PEvent.term pid, PEvent.waitOne pid]
    if isAlive t3 pid then (t3, evs, .error .timeoutExpired)
    else (t3, evs, .ok ())
  else (t, [], .ok ())

/-- The loop of `timeout_handler` at src/patches/mledojo/utils.py lines
326-331: call `terminate_process_and_children` on each member of `cs` in
order, swallowing any exception (`except Exception as e: print(...)`). -/
def reapEach : PTable → List Nat → PTable × List PEvent
  | t, [] => (t, [])
  | t, c :: cs =>
    let r1 := terminate_process_and_children t c
    let r2 := reapEach r1.1 cs
    (r2.1, r1.2.1 ++ r2.2)

/-- Outcome of the supervised unit of work, as observable at the moment
`thread.join(timeout)` returns: either the worker thread finished within
the deadline (with a return value or a raised exception, recorded by the
`target` closure into `result[0]` / `exception[0]`), or the thread is
still alive. -/
inductive WorkOutcome (α : Type) where
  | completes (r : Except PyErr α)
  | running

/-- `timeout_handler` (src/patches/mledojo/utils.py, lines 264-341).
On the completion path it re-raises the worker's exception or returns its
value, with no psutil activity.  On the timeout path it snapshots the
descendants of the *current* process, terminates them, grace-waits, kills
the ones still alive, then calls `terminate_process_and_children` on every
member of the snapshot (exceptions swallowed), and finally raises
`TimeoutError`. -/
def timeout_handler {α : Type} (t : PTable) (current_pid : Nat)
    (w : WorkOutcome α) : PTable × List PEvent × Except PyErr α :=
  match w with
  | .completes (.ok v) => (t, [], .ok v)
  | .completes (.error e) => (t, [], .error e)
  | .running =>
    let child_processes := get_all_child_processes t current_pid
    let t1 := child_processes.foldl sendTerm t
    let still_alive := child_processes.filter fun c => isAlive t1 c
    let t2 := still_alive.foldl sendKill t1
    let rp := reapEach t2 child_processes
    (rp.1,
     child_processes.map PEvent.term ++
       PEvent.graceWait :: still_alive.map PEvent.kill ++ rp.2,
     .error .timeoutError)

/-- Well-formed process table: every entry's parent id is strictly below
its own id (process ids increase down the tree, so the table is acyclic
and no process is its own descendant). -/
def Wf (t : PTable) : Prop :=
  ∀ p ∈ t, p.ppid < p.pid

instance (t : PTable) : Decidable (Wf t) :=
  inferInstanceAs (Decidable (∀ p ∈ t, p.ppid < p.pid))

/-! ## The step-budgeted agent runners of `src/main.py`

Each runner is a `for i in range(max_steps)` loop, embedded as fuel
recursion with fuel equal to the remaining iterations; the running
iteration index `i` and the next unused clock index `ti` are threaded
explicitly.  `time.time()` calls consume successive clock indices:
index 0 is `start_time`, and each iteration uses the next index for its
top-of-loop reading (and, in the MLE/OpenAI runners, one more for the
end-of-loop reading). -/

/-- How a runner's loop ended, as distinguished by the source's log
messages: the `for` loop exhausted `max_steps`, the agent answered
`"Error"`, the agent answered `"End"`, or the elapsed-time check broke
out of the loop. -/
inductive RunEnd where
  | stepsExhausted
  | agentError
  | agentEnd
  | timeExhausted
deriving DecidableEq, Repr

/-- The three history files of `setup_agent_history_dir`. -/
inductive HFile where
  | trajF
  | fixF
  | costF
deriving DecidableEq, Repr

/-- Observable actions of one MLE/OpenAI runner iteration, tagged with the
iteration index `i`.  `agentAct` records the `steps_left` and `time_left`
arguments passed to `agent.act`; `persist` records a wholesale overwrite
of one history file with the given content; `envStep` records the call of
`env.step` and the reward it returned. -/
inductive MEvent (Json : Type) where
  | agentAct (i : Nat) (stepsLeft : Nat) (timeLeft : Int) (action : String)
  | persist (i : Nat) (f : HFile) (content : Json)
  | envStep (i : Nat) (action : String) (reward : Int)
deriving DecidableEq, Repr

/-- The iteration index an MLE/OpenAI runner event belongs to. -/
def MEvent.idx {Json : Type} : MEvent Json → Nat
  | .agentAct i _ _ _ => i
  | .persist i _ _ => i
  | .envStep i _ _ => i

/-- The MLE agent as consumed by `run_mle_agent`: `act` maps
(observation, steps left, time left) to a tagged action, and the three
history attributes are functions of the number of `act` calls made so
far.  An `Option` field being `none` models the attribute being absent,
so that a plain attribute access raises `AttributeError`. -/
structure MleAgentM (Obs Params Json : Type) where
  act : Option Obs → Nat → Int → String × Params
  conversation_history : Option (Nat → Json)
  fix_parse_history : Option (Nat → Json)
  cost_history : Option (Nat → Json)

/-- The OpenAI agent as consumed by `run_openai_agent`; identical to the
MLE agent except that the trajectory attribute is `history_to_save`. -/
structure OaAgentM (Obs Params Json : Type) where
  act : Option Obs → Nat → Int → String × Params
  history_to_save : Option (Nat → Json)
  fix_parse_history : Option (Nat → Json)
  cost_history : Option (Nat → Json)

/-- The environment's `step` method: from the number of previous `step`
calls, the action tag and its parameters, produce the next observation
and the reward. -/
structure EnvM (Obs Params : Type) where
  step : Nat → String → Params → Obs × Int

/-- Loop body of `run_mle_agent` (src/main.py, lines 167-202).
Per iteration: read the clock, compute
`time_left = max(0, execution_timeout - elapsed)`, call `agent.act`;
on `"Error"`/`"End"` break immediately; otherwise dump the three history
attributes to their files (plain attribute access: a missing attribute
raises `AttributeError`), call `env.step`, and only then re-read the
clock and break when `elapsed >= execution_timeout`. -/
def runMleAux {Obs Params Json : Type} (A : MleAgentM Obs Params Json)
    (E : EnvM Obs Params) (execution_timeout : Int) (clock : Nat → Int)
    (start : Int) :
    Nat → Nat → Option Obs → Nat → Except PyErr (RunEnd × List (MEvent Json))
  | 0, _, _, _ => .ok (.stepsExhausted, [])
  | r + 1, i, obs, ti =>
    let time_left := max 0 (execution_timeout - (clock ti - start))
    let ap := A.act obs (r + 1) time_left
    let actEv : MEvent Json := .agentAct i (r + 1) time_left ap.1
    if ap.1 == "Error" then .ok (.agentError, [actEv])
    else if ap.1 == "End" then .ok (.agentEnd, [actEv])
    else
      match A.conversation_history with
      | none => .error (.attributeError "conversation_history")
      | some ch =>
        match A.fix_parse_history with
        | none => .error (.attributeError "fix_parse_history")
        | some fh =>
          match A.cost_history with
          | none => .error (.attributeError "cost_history")
          | some costh =>
            let sr := E.step i ap.1 ap.2
            let block : List (MEvent Json) :=
              [actEv, .persist i .trajF (ch (i + 1)),
               .persist i .fixF (fh (i + 1)),
               .persist i .costF (costh (i + 1)),
               .envStep i ap.1 sr.2]
            if execution_timeout ≤ clock (ti + 1) - start then
              .ok (.timeExhausted, block)
            else
              match runMleAux A E execution_timeout clock start r (i + 1)
                  (some sr.1) (ti + 2) with
              | .error e => .error e
              | .ok p => .ok (p.1, block ++ p.2)

/-- `run_mle_agent` (src/main.py, lines 137-204): `start_time` is clock
index 0 and the loop runs for at most `max_steps` iterations. -/
def run_mle_agent {Obs Params Json : Type} (A : MleAgentM Obs Params Json)
    (E : EnvM Obs Params) (max_steps : Nat) (execution_timeout : Int)
    (clock : Nat → Int) : Except PyErr (RunEnd × List (MEvent Json)) :=
  runMleAux A E execution_timeout clock (clock 0) max_steps 0 none 1

/-- Loop body of `run_openai_agent` (src/main.py, lines 97-133); the same
control flow as `run_mle_agent` (the `await` of `agent.act` does not
change the sequential order of observable actions), with the trajectory
taken from `agent.history_to_save`. -/
def runOaAux {Obs Params Json : Type} (A : OaAgentM Obs Params Json)
    (E : EnvM Obs Params) (execution_timeout : Int) (clock : Nat → Int)
    (start : Int) :
    Nat → Nat → Option Obs → Nat → Except PyErr (RunEnd × List (MEvent Json))
  | 0, _, _, _ => .ok (.stepsExhausted, [])
  | r + 1, i, obs, ti =>
    let time_left := max 0 (execution_timeout - (clock ti - start))
    let ap := A.act obs (r + 1) time_left
    let actEv : MEvent Json := .agentAct i (r + 1) time_left ap.1
    if ap.1 == "Error" then .ok (.agentError, [actEv])
    else if ap.1 == "End" then .ok (.agentEnd, [actEv])
    else
      match A.history_to_save with
      | none => .error (.attributeError "history_to_save")
      | some ch =>
        match A.fix_parse_history with
        | none => .error (.attributeError "fix_parse_history")
        | some fh =>
          match A.cost_history with
          | none => .error (.attributeError "cost_history")
          | some costh =>
            let sr := E.step i ap.1 ap.2
            let block : List (MEvent Json) :=
              [actEv, .persist i .trajF (ch (i + 1)),
               .persist i .fixF (fh (i + 1)),
               .persist i .costF (costh (i + 1)),
               .envStep i ap.1 sr.2]
            if execution_timeout ≤ clock (ti + 1) - start then
              .ok (.timeExhausted, block)
            else
              match runOaAux A E execution_timeout clock start r (i + 1)
                  (some sr.1) (ti + 2) with
              | .error e => .error e
              | .ok p => .ok (p.1, block ++ p.2)

/-- `run_openai_agent` (src/main.py, lines 67-134). -/
def run_openai_agent {Obs Params Json : Type} (A : OaAgentM Obs Params Json)
    (E : EnvM Obs Params) (max_steps : Nat) (execution_timeout : Int)
    (clock : Nat → Int) : Except PyErr (RunEnd × List (MEvent Json)) :=
  runOaAux A E execution_timeout clock (clock 0) max_steps 0 none 1

/-- The dummy agent as consumed by `run_dummy_agent`: `act` takes only the
observation; the optional history attributes are probed with `hasattr`
(`none` = attribute absent, tolerated). -/
structure DummyAgentM (Obs Params Json : Type) where
  act : Option Obs → String × Params
  conversation_history : Option (Nat → Json)
  fix_parse_history : Option (Nat → Json)
  cost_history : Option (Nat → Json)

/-- Observable actions of one `run_dummy_agent` iteration. -/
inductive DEvent (Json : Type) where
  | agentAct (action : String)
  | persist (f : HFile) (content : Json)
  | envStep (action : String) (reward : Int)
deriving DecidableEq, Repr

/-- Loop body of `run_dummy_agent` (src/main.py, lines 290-317).
Per iteration: read the clock and break with the time warning when
`elapsed >= execution_timeout`; otherwise call `agent.act(obs)`,
persist each history attribute the agent has (each guarded by
`hasattr`), and call `env.step` — there is no check of the action tag
and no end-of-loop time check. -/
def runDummyAux {Obs Params Json : Type} (A : DummyAgentM Obs Params Json)
    (E : EnvM Obs Params) (execution_timeout : Int) (clock : Nat → Int)
    (start : Int) :
    Nat → Nat → Option Obs → Nat → RunEnd × List (DEvent Json)
  | 0, _, _, _ => (.stepsExhausted, [])
  | r + 1, i, obs, ti =>
    if execution_timeout ≤ clock ti - start then (.timeExhausted, [])
    else
      let ap := A.act obs
      let sr := E.step i ap.1 ap.2
      let evs : List (DEvent Json) :=
        DEvent.agentAct ap.1 ::
        ((match A.conversation_history with
          | some ch => [DEvent.persist .trajF (ch (i + 1))]
          | none => []) ++
         (match A.fix_parse_history with
          | some fh => [DEvent.persist .fixF (fh (i + 1))]
          | none => []) ++
         (match A.cost_history with
          | some costh => [DEvent.persist .costF (costh (i + 1))]
          | none => []) ++
         [DEvent.envStep ap.1 sr.2])
      let rest := runDummyAux A E execution_timeout clock start r (i + 1)
        (some sr.1) (ti + 1)
      (rest.1, evs ++ rest.2)

/-- `run_dummy_agent` (src/main.py, lines 261-319). -/
def run_dummy_agent {Obs Params Json : Type} (A : DummyAgentM Obs Params Json)
    (E : EnvM Obs Params) (max_steps : Nat) (execution_timeout : Int)
    (clock : Nat → Int) : RunEnd × List (DEvent Json) :=
  runDummyAux A E execution_timeout clock (clock 0) max_steps 0 none 1

/-! ## Concrete inputs used by witnesses and counterexamples -/

/-- A three-process chain: current process 1 with child 2 and grandchild 3;
the grandchild ignores the graceful terminate signal. -/
def exTreeT : PTable :=
  [⟨1, 0, true, false⟩, ⟨2, 1, true, false⟩, ⟨3, 2, true, true⟩]

/-- A single childless process that ignores the graceful terminate
signal. -/
def exStubbornRootT : PTable := [⟨1, 0, true, true⟩]

/-- Root 1 with a single child 2 that ignores the graceful terminate
signal (so the child is still alive after the grace wait). -/
def exSurvivorT : PTable := [⟨1, 0, true, false⟩, ⟨2, 1, true, true⟩]

/-- A table in which pid 5 has already exited. -/
def exGoneT : PTable := [⟨1, 0, true, false⟩, ⟨5, 1, false, false⟩]

/-- A clock that never advances. -/
def exClock0 : Nat → Int := fun _ => 0

/-- Clock readings for a two-iteration run against a budget of 10:
start 0, first iteration top 3 and end 5, second iteration top 12
(budget already exceeded) and end 13. -/
def exClockA : Nat → Int
  | 0 => 0
  | 1 => 3
  | 2 => 5
  | 3 => 12
  | _ => 13

/-- An environment whose k-th step returns observation k and reward 7. -/
def exEnv : EnvM Nat Nat := ⟨fun k _ _ => (k, 7)⟩

/-- An MLE agent that always executes code; its history attributes after
k act calls are k, 10k and 100k. -/
def exMleStepAgent : MleAgentM Nat Nat Nat :=
  ⟨fun _ _ _ => ("execute_code", 0), some (fun k => k),
   some (fun k => 10 * k), some (fun k => 100 * k)⟩

/-- An MLE agent that answers `"End"` on every call. -/
def exMleEndAgent : MleAgentM Nat Nat Nat :=
  ⟨fun _ _ _ => ("End", 0), some (fun k => k), some (fun k => k),
   some (fun k => k)⟩

/-- An MLE agent that answers `"Error"` on every call. -/
def exMleErrAgent : MleAgentM Nat Nat Nat :=
  ⟨fun _ _ _ => ("Error", 0), some (fun k => k), some (fun k => k),
   some (fun k => k)⟩

/-- An MLE agent lacking the `cost_history` attribute. -/
def exMleNoCostAgent : MleAgentM Nat Nat Nat :=
  ⟨fun _ _ _ => ("execute_code", 0), some (fun k => k), some (fun k => k),
   none⟩

/-- An OpenAI agent that always executes code. -/
def exOaStepAgent : OaAgentM Nat Nat Nat :=
  ⟨fun _ _ _ => ("execute_code", 0), some (fun k => k),
   some (fun k => 10 * k), some (fun k => 100 * k)⟩

/-- An OpenAI agent that answers `"End"` on every call. -/
def exOaEndAgent : OaAgentM Nat Nat Nat :=
  ⟨fun _ _ _ => ("End", 0), some (fun k => k), some (fun k => k),
   some (fun k => k)⟩

/-- An OpenAI agent lacking the `cost_history` attribute. -/
def exOaNoCostAgent : OaAgentM Nat Nat Nat :=
  ⟨fun _ _ _ => ("execute_code", 0), some (fun k => k), some (fun k => k),
   none⟩

/-- A dummy agent that answers `"End"` on every call and exposes none of
the optional history attributes. -/
def exDummyEndAgent : DummyAgentM Nat Nat Nat :=
  ⟨fun _ => ("End", 0), none, none, none⟩

/-- The trace of `run_mle_agent exMleStepAgent exEnv 2 10 exClockA`:
two full iterations; at the second iteration's top the elapsed time is
already 12 ≥ 10, so `time_left` is 0, yet the agent is still asked and a
full environment step still runs. -/
def exTrA : List (MEvent Nat) :=
  [.agentAct 0 2 7 "execute_code", .persist 0 .trajF 1, .persist 0 .fixF 10,
   .persist 0 .costF 100, .envStep 0 "execute_code" 7,
   .agentAct 1 1 0 "execute_code", .persist 1 .trajF 2, .persist 1 .fixF 20,
   .persist 1 .costF 200, .envStep 1 "execute_code" 7]

/-- The trace of `run_mle_agent exMleStepAgent exEnv 1 100 exClock0` (and
of the analogous OpenAI run): one full iteration. -/
def exTrB : List (MEvent Nat) :=
  [.agentAct 0 1 100 "execute_code", .persist 0 .trajF 1,
   .persist 0 .fixF 10, .persist 0 .costF 100, .envStep 0 "execute_code" 7]

/-- The first four events of `exTrB`: everything persisted before the
environment step. -/
def exTrBu : List (MEvent Nat) :=
  [.agentAct 0 1 100 "execute_code", .persist 0 .trajF 1,
   .persist 0 .fixF 10, .persist 0 .costF 100]

/-! ## Helper lemmas about the process model -/

theorem Wf_setDead {t : PTable} (h : Wf t) (x : Nat) : Wf (setDead t x) := by
  intro p hp
  rcases List.mem_map.mp hp with ⟨q, hq, rfl⟩
  split <;> exact h q hq

theorem Wf_sendTerm {t : PTable} (h : Wf t) (x : Nat) : Wf (sendTerm t x) := by
  unfold sendTerm
  split
  · exact Wf_setDead h x
  · exact h

theorem Wf_sendKill {t : PTable} (h : Wf t) (x : Nat) : Wf (sendKill t x) :=
  Wf_setDead h x

theorem Wf_foldl_sendTerm {t : PTable} (h : Wf t) (xs : List Nat) :
    Wf (xs.foldl sendTerm t) := by
  induction xs generalizing t with
  | nil => exact h
  | cons x xs ih => exact ih (Wf_sendTerm h x)

theorem Wf_foldl_sendKill {t : PTable} (h : Wf t) (xs : List Nat) :
    Wf (xs.foldl sendKill t) := by
  induction xs generalizing t with
  | nil => exact h
  | cons x xs ih => exact ih (Wf_sendKill h x)

theorem childPids_lt {t : PTable} (hwf : Wf t) {roots : List Nat} {m : Nat}
    (hm : ∀ r ∈ roots, m ≤ r) : ∀ x ∈ childPids t roots, m < x := by
  intro x hx
  simp only [childPids, List.mem_map, List.mem_filter, Bool.and_eq_true,
    decide_eq_true_eq] at hx
  obtain ⟨p, ⟨hp, _, h2⟩, rfl⟩ := hx
  exact lt_of_le_of_lt (hm _ h2) (hwf p hp)

theorem descendantsAux_lt {t : PTable} (hwf : Wf t) :
    ∀ (fuel : Nat) (roots : List Nat) (m : Nat), (∀ r ∈ roots, m ≤ r) →
      ∀ x ∈ descendantsAux t fuel roots, m < x := by
  intro fuel
  induction fuel with
  | zero =>
    intro roots m _ x hx
    simp [descendantsAux] at hx
  | succ n ih =>
    intro roots m hm x hx
    simp only [descendantsAux, List.mem_append] at hx
    rcases hx with hx | hx
    · exact childPids_lt hwf hm x hx
    · exact ih _ m (fun r hr => le_of_lt (childPids_lt hwf hm r hr)) x hx

theorem descendants_lt {t : PTable} (hwf : Wf t) (root : Nat) :
    ∀ x ∈ descendants t root, root < x := by
  intro x hx
  exact descendantsAux_lt hwf _ [root] root (by simp) x hx

theorem isAlive_of_resists {t : PTable} {c : Nat} (h : resists t c = true) :
    isAlive t c = true := by
  simp only [resists, List.any_eq_true, Bool.and_eq_true] at h
  obtain ⟨p, hp, ⟨h1, h2⟩, _⟩ := h
  simp only [isAlive, List.any_eq_true, Bool.and_eq_true]
  exact ⟨p, hp, h1, h2⟩

theorem resists_setDead {t : PTable} {c x : Nat} (hne : x ≠ c)
    (h : resists t c = true) : resists (setDead t x) c = true := by
  simp only [resists, setDead, List.any_eq_true, Bool.and_eq_true,
    beq_iff_eq, List.mem_map] at h ⊢
  obtain ⟨p, hp, ⟨h1, h2⟩, h3⟩ := h
  refine ⟨p, ⟨p, hp, ?_⟩, ⟨h1, h2⟩, h3⟩
  rw [if_neg]
  simp only [beq_iff_eq, h1]
  exact fun hc => hne hc.symm

theorem resists_sendTerm {t : PTable} {c : Nat} (x : Nat)
    (h : resists t c = true) : resists (sendTerm t x) c = true := by
  unfold sendTerm
  split
  · next hcond =>
    have hxc : x ≠ c := by
      rintro rfl
      rw [h] at hcond
      simp at hcond
    exact resists_setDead hxc h
  · exact h

theorem resists_foldl_sendTerm {t : PTable} {c : Nat}
    (h : resists t c = true) (xs : List Nat) :
    resists (xs.foldl sendTerm t) c = true := by
  induction xs generalizing t with
  | nil => exact h
  | cons x xs ih => exact ih (resists_sendTerm x h)

theorem tpac_dead {t : PTable} {pid : Nat} (h : isAlive t pid = false) :
    terminate_process_and_children t pid = (t, [], Except.ok ()) := by
  unfold terminate_process_and_children
  rw [if_neg (by simp [h])]

theorem tpac_trace_live {t : PTable} {pid : Nat} (h : isAlive t pid = true) :
    (terminate_process_and_children t pid).2.1 =
      (descendants t pid).map PEvent.term ++
      PEvent.graceWait ::
        ((descendants t pid).filter fun c =>
          isAlive ((descendants t pid).foldl sendTerm t) c).map PEvent.kill ++
      [PEvent.term pid, PEvent.waitOne pid] := by
  unfold terminate_process_and_children
  rw [if_pos h]
  dsimp only
  split <;> rfl

theorem Wf_tpac {t : PTable} (hwf : Wf t) (pid : Nat) :
    Wf (terminate_process_and_children t pid).1 := by
  unfold terminate_process_and_children
  split
  · dsimp only
    split
    · exact Wf_sendTerm (Wf_foldl_sendKill (Wf_foldl_sendTerm hwf _) _) _
    · exact Wf_sendTerm (Wf_foldl_sendKill (Wf_foldl_sendTerm hwf _) _) _
  · exact hwf

theorem tpac_events_target {t : PTable} (hwf : Wf t) (pid : Nat) :
    ∀ e ∈ (terminate_process_and_children t pid).2.1,
      PEvent.target e = none ∨ ∃ q, pid ≤ q ∧ PEvent.target e = some q := by
  intro e he
  cases hA : isAlive t pid with
  | false =>
    rw [tpac_dead hA] at he
    simp at he
  | true =>
    rw [tpac_trace_live hA] at he
    rcases List.mem_append.mp he with h1 | h1
    · rcases List.mem_append.mp h1 with h2 | h2
      · obtain ⟨c, hc, rfl⟩ := List.mem_map.mp h2
        exact Or.inr ⟨c, le_of_lt (descendants_lt hwf pid c hc), rfl⟩
      · rcases List.mem_cons.mp h2 with rfl | h3
        · exact Or.inl rfl
        · obtain ⟨c, hc, rfl⟩ := List.mem_map.mp h3
          exact Or.inr ⟨c, le_of_lt
            (descendants_lt hwf pid c (List.mem_of_mem_filter hc)), rfl⟩
    · rcases List.mem_cons.mp h1 with rfl | h2
      · exact Or.inr ⟨pid, le_refl pid, rfl⟩
      · rcases List.mem_cons.mp h2 with rfl | h3
        · exact Or.inr ⟨pid, le_refl pid, rfl⟩
        · simp at h3

theorem Wf_reapEach {t : PTable} (hwf : Wf t) (cs : List Nat) :
    Wf (reapEach t cs).1 := by
  induction cs generalizing t with
  | nil => exact hwf
  | cons c cs ih =>
    simp only [reapEach]
    exact ih (Wf_tpac hwf c)

theorem reapEach_events_target {m : Nat} :
    ∀ (cs : List Nat) (t : PTable), Wf t → (∀ c ∈ cs, m < c) →
      ∀ e ∈ (reapEach t cs).2, PEvent.target e = none ∨
        ∃ q, m < q ∧ PEvent.target e = some q := by
  intro cs
  induction cs with
  | nil =>
    intro t _ _ e he
    simp [reapEach] at he
  | cons c cs ih =>
    intro t hwf hcs e he
    simp only [reapEach, List.mem_append] at he
    rcases he with he | he
    · rcases tpac_events_target hwf c e he with h | ⟨q, hq, hq2⟩
      · exact Or.inl h
      · exact Or.inr ⟨q, lt_of_lt_of_le (hcs c (by simp)) hq, hq2⟩
    · exact ih _ (Wf_tpac hwf c) (fun x hx => hcs x (by simp [hx])) e he

theorem timeout_handler_trace {α : Type} (t : PTable) (cur : Nat) :
    (timeout_handler (α := α) t cur .running).2.1 =
      (get_all_child_processes t cur).map PEvent.term ++
      PEvent.graceWait ::
        ((get_all_child_processes t cur).filter fun c =>
            isAlive ((get_all_child_processes t cur).foldl sendTerm t) c).map
          PEvent.kill ++
      (reapEach
        (((get_all_child_processes t cur).filter fun c =>
            isAlive ((get_all_child_processes t cur).foldl sendTerm t) c).foldl
          sendKill ((get_all_child_processes t cur).foldl sendTerm t))
        (get_all_child_processes t cur)).2 := rfl

theorem gacp_lt {t : PTable} (hwf : Wf t) (cur : Nat) :
    ∀ c ∈ get_all_child_processes t cur, cur < c := by
  intro c hc
  unfold get_all_child_processes at hc
  split at hc
  · exact descendants_lt hwf cur c hc
  · simp at hc

/-! ## Claim theorems -/

/-- C1: when the deadline elapses while the unit of work is still running,
`timeout_handler` signals timeout by raising (`TimeoutError`, never a
normal return); every discovered descendant of the current process
receives the graceful terminate, the bounded grace wait is performed, and
every discovered descendant still alive after the graceful pass (in
particular every one that ignores the terminate signal) receives the
forceful kill; and no signal of the whole expiry path — including the
`terminate_process_and_children` sweep over the snapshot — ever targets
the current process itself (the worker execution context is a thread of
the current process, and the current process is never terminated or
killed). -/
theorem timeout_handler_expiry_reaps_and_raises {α : Type} (t : PTable)
    (current_pid : Nat) (hwf : Wf t) :
    (timeout_handler (α := α) t current_pid .running).2.2 =
        Except.error PyErr.timeoutError ∧
    (∀ c ∈ get_all_child_processes t current_pid,
        PEvent.term c ∈ (timeout_handler (α := α) t current_pid .running).2.1) ∧
    PEvent.graceWait ∈ (timeout_handler (α := α) t current_pid .running).2.1 ∧
    (∀ c ∈ get_all_child_processes t current_pid, resists t c = true →
        PEvent.kill c ∈ (timeout_handler (α := α) t current_pid .running).2.1) ∧
    (∀ e ∈ (timeout_handler (α := α) t current_pid .running).2.1,
        PEvent.target e ≠ some current_pid) := by
  refine ⟨rfl, ?_, ?_, ?_, ?_⟩
  · intro c hc
    rw [timeout_handler_trace]
    exact List.mem_append_left _
      (List.mem_append_left _ (List.mem_map_of_mem PEvent.term hc))
  · rw [timeout_handler_trace]
    exact List.mem_append_left _ (List.mem_append_right _ (List.mem_cons_self _ _))
  · intro c hc hres
    rw [timeout_handler_trace]
    have halive : isAlive
        ((get_all_child_processes t current_pid).foldl sendTerm t) c =
          true :=
      isAlive_of_resists (resists_foldl_sendTerm hres _)
    refine List.mem_append_left _ (List.mem_append_right _ ?_)
    exact List.mem_cons_of_mem _
      (List.mem_map_of_mem PEvent.kill (List.mem_filter.mpr ⟨hc, halive⟩))
  · intro e he heq
    rw [timeout_handler_trace] at he
    have hlt : ∀ c ∈ get_all_child_processes t current_pid, current_pid < c :=
      gacp_lt hwf current_pid
    rcases List.mem_append.mp he with h1 | h1
    · rcases List.mem_append.mp h1 with h2 | h2
      · obtain ⟨c, hc, rfl⟩ := List.mem_map.mp h2
        simp only [PEvent.target, Option.some.injEq] at heq
        exact absurd heq.symm (Nat.ne_of_lt (hlt c hc))
      · rcases List.mem_cons.mp h2 with rfl | h3
        · simp [PEvent.target] at heq
        · obtain ⟨c, hc, rfl⟩ := List.mem_map.mp h3
          simp only [PEvent.target, Option.some.injEq] at heq
          exact absurd heq.symm
            (Nat.ne_of_lt (hlt c (List.mem_of_mem_filter hc)))
    · have hwf2 : Wf (((get_all_child_processes t current_pid).filter fun c =>
          isAlive ((get_all_child_processes t current_pid).foldl sendTerm t) c).foldl
            sendKill ((get_all_child_processes t current_pid).foldl sendTerm t)) :=
        Wf_foldl_sendKill (Wf_foldl_sendTerm hwf _) _
      rcases reapEach_events_target (m := current_pid) _ _ hwf2 hlt e h1 with
        h | ⟨q, hq, hq2⟩
      · rw [heq] at h
        simp at h
      · rw [heq] at hq2
        have : q = current_pid := by
          injection hq2.symm
        omega

/-- C1 witness: on the concrete tree `exTreeT` (current process 1, child
2, grandchild 3 that ignores terminate), the expiry path raises
`TimeoutError`, terminates 2, kills the resisting grandchild 3, and sends
nothing to process 1. -/
theorem timeout_handler_expiry_reaps_and_raises_witness :
    (timeout_handler (α := Unit) exTreeT 1 .running).2.2 =
        Except.error PyErr.timeoutError ∧
    PEvent.term 2 ∈ (timeout_handler (α := Unit) exTreeT 1 .running).2.1 ∧
    PEvent.kill 3 ∈ (timeout_handler (α := Unit) exTreeT 1 .running).2.1 ∧
    ∀ e ∈ (timeout_handler (α := Unit) exTreeT 1 .running).2.1,
      PEvent.target e ≠ some 1 := by
  have h := timeout_handler_expiry_reaps_and_raises (α := Unit) exTreeT 1
    (by decide)
  exact ⟨h.1, h.2.1 2 (by decide), h.2.2.2.1 3 (by decide) (by decide),
    h.2.2.2.2⟩

/-- C2 counterexample: on `exSurvivorT` (root 1, child 2 ignoring the
graceful terminate, hence still alive after the grace wait), the full
trace of `terminate_process_and_children exSurvivorT 1` is the single
pass `[term 2, graceWait, kill 2, term 1, waitOne 1]`: after the
forceful-kill pass nothing but the root handling happens — in particular
member 2, which was still alive after the grace wait, receives exactly
one graceful terminate and no recursive re-application of the
terminate→wait→kill sequence. -/
theorem tpac_no_recursive_reapply_cex :
    terminate_process_and_children exSurvivorT 1 =
      ([⟨1, 0, false, false⟩, ⟨2, 1, false, true⟩],
       [PEvent.term 2, PEvent.graceWait, PEvent.kill 2,
        PEvent.term 1, PEvent.waitOne 1],
       Except.ok ()) ∧
    (terminate_process_and_children exSurvivorT 1).2.1.count
        (PEvent.term 2) = 1 := by
  exact ⟨rfl, rfl⟩

/-- C2 (amended): `terminate_process_and_children` itself performs no
recursive re-application: after its forceful-kill pass the only remaining
events are the graceful terminate and bounded wait of the root itself
(part 1).  The catch-up re-application lives one level up, in
`timeout_handler`: its trace is EXACTLY its own terminate → grace-wait →
kill pass followed by the `reapEach` sweep over the WHOLE original
snapshot, starting from the table the kill pass produced (part 2, an
exact equation with no free choice of prefix or table); and `reapEach`
makes exactly one `terminate_process_and_children` call per snapshot
member, in order, threading the table through (parts 3 and 4) — so the
sweep covers every member of the original snapshot, not only the members
that were still alive after the grace wait, each call being a single,
non-recursive pass with a fresh descendant discovery. -/
theorem tpac_single_pass_reapply_in_timeout_handler :
    (∀ (t : PTable) (pid : Nat), isAlive t pid = true →
      ∃ killSeq : List Nat,
        (terminate_process_and_children t pid).2.1 =
          (descendants t pid).map PEvent.term ++
          PEvent.graceWait :: killSeq.map PEvent.kill ++
          [PEvent.term pid, PEvent.waitOne pid]) ∧
    (∀ (α : Type) (t : PTable) (cur : Nat),
      (timeout_handler (α := α) t cur .running).2.1 =
        (get_all_child_processes t cur).map PEvent.term ++
        PEvent.graceWait ::
          ((get_all_child_processes t cur).filter fun c =>
              isAlive ((get_all_child_processes t cur).foldl sendTerm t) c).map
            PEvent.kill ++
        (reapEach
          (((get_all_child_processes t cur).filter fun c =>
              isAlive ((get_all_child_processes t cur).foldl sendTerm t) c).foldl
            sendKill ((get_all_child_processes t cur).foldl sendTerm t))
          (get_all_child_processes t cur)).2) ∧
    (∀ (t : PTable) (c : Nat) (cs : List Nat),
      (reapEach t (c :: cs)).2 =
        (terminate_process_and_children t c).2.1 ++
          (reapEach (terminate_process_and_children t c).1 cs).2) ∧
    (∀ t : PTable, (reapEach t []).2 = []) := by
  refine ⟨?_, ?_, ?_, ?_⟩
  · intro t pid h
    exact ⟨(descendants t pid).filter fun c =>
        isAlive ((descendants t pid).foldl sendTerm t) c,
      tpac_trace_live h⟩
  · intro α t cur
    exact timeout_handler_trace t cur
  · intro t c cs
    rfl
  · intro t
    rfl

/-- C2 amended witness: part 1 instantiated on `exSurvivorT` with root 1,
and the exact trace equation of part 2 instantiated on the
`timeout_handler` expiry path over `exTreeT`. -/
theorem tpac_single_pass_reapply_witness :
    (∃ killSeq : List Nat,
      (terminate_process_and_children exSurvivorT 1).2.1 =
        (descendants exSurvivorT 1).map PEvent.term ++
        PEvent.graceWait :: killSeq.map PEvent.kill ++
        [PEvent.term 1, PEvent.waitOne 1]) ∧
    (timeout_handler (α := Unit) exTreeT 1 .running).2.1 =
      (get_all_child_processes exTreeT 1).map PEvent.term ++
      PEvent.graceWait ::
        ((get_all_child_processes exTreeT 1).filter fun c =>
            isAlive
              ((get_all_child_processes exTreeT 1).foldl sendTerm exTreeT)
              c).map
          PEvent.kill ++
      (reapEach
        (((get_all_child_processes exTreeT 1).filter fun c =>
            isAlive
              ((get_all_child_processes exTreeT 1).foldl sendTerm exTreeT)
              c).foldl
          sendKill ((get_all_child_processes exTreeT 1).foldl sendTerm exTreeT))
        (get_all_child_processes exTreeT 1)).2 :=
  ⟨tpac_single_pass_reapply_in_timeout_handler.1 exSurvivorT 1 (by decide),
   tpac_single_pass_reapply_in_timeout_handler.2.1 Unit exTreeT 1⟩

/-- C4: when the supervised unit of work completes before the deadline,
`timeout_handler` propagates its outcome unchanged — the returned value
is returned to the caller, a raised exception is re-raised identically —
and no process signalling of any kind happens (the event trace is
empty). -/
theorem timeout_handler_completion_propagates {α : Type} (t : PTable)
    (current_pid : Nat) (r : Except PyErr α) :
    timeout_handler t current_pid (WorkOutcome.completes r) = (t, [], r) := by
  cases r <;> rfl

/-- C7: the claim matches the source's own docstring ("forcibly kills any
processes that don't terminate within the timeout") and the spec, but the
code diverges: on a root process that ignores the graceful terminate and
is still running after the grace window, `parent.wait(3)` raises
`psutil.TimeoutExpired`, which is not caught (only `NoSuchProcess` is),
so the call raises instead of returning normally and the final
`parent.kill()` is never executed — the root receives no forceful kill. -/
theorem tpac_stubborn_root_raises_no_kill :
    terminate_process_and_children exStubbornRootT 1 =
      (exStubbornRootT,
       [PEvent.graceWait, PEvent.term 1, PEvent.waitOne 1],
       Except.error PyErr.timeoutExpired) ∧
    PEvent.kill 1 ∉ (terminate_process_and_children exStubbornRootT 1).2.1 := by
  exact ⟨rfl, by decide⟩

/-- C8: `terminate_process_and_children` on a pid with no live process is
a silent no-op (the `NoSuchProcess` of `psutil.Process(pid)` is caught):
it returns normally, changes nothing and sends no signals — and calling
it twice in a row behaves identically both times. -/
theorem tpac_gone_pid_noop (t : PTable) (pid : Nat)
    (h : isAlive t pid = false) :
    terminate_process_and_children t pid = (t, [], Except.ok ()) ∧
    terminate_process_and_children
        (terminate_process_and_children t pid).1 pid =
      (t, [], Except.ok ()) := by
  refine ⟨tpac_dead h, ?_⟩
  rw [tpac_dead h]
  exact tpac_dead h

/-- C8 witness: two consecutive calls on the already-exited pid 5 of
`exGoneT`. -/
theorem tpac_gone_pid_noop_witness :
    terminate_process_and_children exGoneT 5 = (exGoneT, [], Except.ok ()) ∧
    terminate_process_and_children
        (terminate_process_and_children exGoneT 5).1 5 =
      (exGoneT, [], Except.ok ()) :=
  tpac_gone_pid_noop exGoneT 5 (by decide)

/-- C10: `get_all_child_processes` on a pid with no live process returns
the empty list instead of raising (`NoSuchProcess` is caught and `[]`
returned). -/
theorem get_all_child_processes_gone (t : PTable) (pid : Nat)
    (h : isAlive t pid = false) : get_all_child_processes t pid = [] := by
  unfold get_all_child_processes
  rw [if_neg (by simp [h])]

/-- C10 witness: discovery on the already-exited pid 5 of `exGoneT`. -/
theorem get_all_child_processes_gone_witness :
    get_all_child_processes exGoneT 5 = [] :=
  get_all_child_processes_gone exGoneT 5 (by decide)

/-! ## Helper lemmas about the runner traces -/

theorem split_cons_cases {γ : Type} {x y : γ} {l u v : List γ}
    (h : x :: l = u ++ y :: v) :
    (u = [] ∧ x = y ∧ l = v) ∨ ∃ u2, u = x :: u2 ∧ l = u2 ++ y :: v := by
  rcases u with _ | ⟨z, u⟩
  · rw [List.nil_append] at h
    injection h with h1 h2
    exact Or.inl ⟨rfl, h1, h2⟩
  · rw [List.cons_append] at h
    injection h with h1 h2
    exact Or.inr ⟨u, by rw [h1], h2⟩

theorem mle_persist_before_env_aux {Obs Params Json : Type}
    (A : MleAgentM Obs Params Json) (E : EnvM Obs Params)
    (execution_timeout : Int) (clock : Nat → Int) (start : Int) :
    ∀ (r i : Nat) (obs : Option Obs) (ti : Nat) (rend : RunEnd)
      (tr u v : List (MEvent Json)) (j : Nat) (a : String) (rw : Int),
      runMleAux A E execution_timeout clock start r i obs ti =
        Except.ok (rend, tr) →
      tr = u ++ MEvent.envStep j a rw :: v →
      (∀ ch, A.conversation_history = some ch →
        MEvent.persist j HFile.trajF (ch (j + 1)) ∈ u) ∧
      (∀ fh, A.fix_parse_history = some fh →
        MEvent.persist j HFile.fixF (fh (j + 1)) ∈ u) ∧
      (∀ g, A.cost_history = some g →
        MEvent.persist j HFile.costF (g (j + 1)) ∈ u) := by
  intro r
  induction r with
  | zero =>
    intro i obs ti rend tr u v j a rw h htr
    simp only [runMleAux, Except.ok.injEq, Prod.mk.injEq] at h
    rw [← h.2] at htr
    rcases u with _ | ⟨e, u⟩ <;> simp at htr
  | succ n ih =>
    intro i obs ti rend tr u v j a rw h htr
    simp only [runMleAux] at h
    split at h
    · simp only [Except.ok.injEq, Prod.mk.injEq] at h
      rw [← h.2] at htr
      rcases split_cons_cases htr with ⟨-, h1, -⟩ | ⟨u2, -, h2⟩
      · exact absurd h1 (by simp)
      · rcases u2 with _ | ⟨e2, u2⟩ <;>
          exact absurd h2.symm (List.cons_ne_nil _ _)
    · split at h
      · simp only [Except.ok.injEq, Prod.mk.injEq] at h
        rw [← h.2] at htr
        rcases split_cons_cases htr with ⟨-, h1, -⟩ | ⟨u2, -, h2⟩
        · exact absurd h1 (by simp)
        · rcases u2 with _ | ⟨e2, u2⟩ <;>
            exact absurd h2.symm (List.cons_ne_nil _ _)
      · split at h
        · simp at h
        · rename_i ch heq1
          split at h
          · simp at h
          · rename_i fh heq2
            split at h
            · simp at h
            · rename_i costh heq3
              split at h
              · -- time exhausted after the full step
                simp only [Except.ok.injEq, Prod.mk.injEq] at h
                rw [← h.2] at htr
                rcases split_cons_cases htr with ⟨rfl, h1, -⟩ | ⟨u1, rfl, htr1⟩
                · exact absurd h1 (by simp)
                rcases split_cons_cases htr1 with ⟨rfl, h1, -⟩ | ⟨u2, rfl, htr2⟩
                · exact absurd h1 (by simp)
                rcases split_cons_cases htr2 with ⟨rfl, h1, -⟩ | ⟨u3, rfl, htr3⟩
                · exact absurd h1 (by simp)
                rcases split_cons_cases htr3 with ⟨rfl, h1, -⟩ | ⟨u4, rfl, htr4⟩
                · exact absurd h1 (by simp)
                rcases split_cons_cases htr4 with ⟨rfl, h1, -⟩ | ⟨u5, rfl, htr5⟩
                · injection h1 with hji hja hjr
                  refine ⟨?_, ?_, ?_⟩
                  · intro ch0 hch0
                    rw [heq1] at hch0
                    injection hch0 with hch
                    rw [← hch, ← hji]
                    simp
                  · intro fh0 hfh0
                    rw [heq2] at hfh0
                    injection hfh0 with hfh
                    rw [← hfh, ← hji]
                    simp
                  · intro g0 hg0
                    rw [heq3] at hg0
                    injection hg0 with hg
                    rw [← hg, ← hji]
                    simp
                · rcases u5 with _ | ⟨e5, u5⟩ <;>
                    exact absurd htr5.symm (List.cons_ne_nil _ _)
              · -- recursive case
                split at h
                · simp at h
                · rename_i p hrec
                  simp only [Except.ok.injEq, Prod.mk.injEq] at h
                  rw [← h.2] at htr
                  simp only [List.cons_append, List.nil_append] at htr
                  rcases split_cons_cases htr with ⟨rfl, h1, -⟩ | ⟨u1, rfl, htr1⟩
                  · exact absurd h1 (by simp)
                  rcases split_cons_cases htr1 with ⟨rfl, h1, -⟩ | ⟨u2, rfl, htr2⟩
                  · exact absurd h1 (by simp)
                  rcases split_cons_cases htr2 with ⟨rfl, h1, -⟩ | ⟨u3, rfl, htr3⟩
                  · exact absurd h1 (by simp)
                  rcases split_cons_cases htr3 with ⟨rfl, h1, -⟩ | ⟨u4, rfl, htr4⟩
                  · exact absurd h1 (by simp)
                  rcases split_cons_cases htr4 with ⟨rfl, h1, -⟩ | ⟨u5, rfl, htr5⟩
                  · injection h1 with hji hja hjr
                    refine ⟨?_, ?_, ?_⟩
                    · intro ch0 hch0
                      rw [heq1] at hch0
                      injection hch0 with hch
                      rw [← hch, ← hji]
                      simp
                    · intro fh0 hfh0
                      rw [heq2] at hfh0
                      injection hfh0 with hfh
                      rw [← hfh, ← hji]
                      simp
                    · intro g0 hg0
                      rw [heq3] at hg0
                      injection hg0 with hg
                      rw [← hg, ← hji]
                      simp
                  · have hres := ih (i + 1) (some (E.step i
                      (A.act obs (n + 1) (max 0 (execution_timeout -
                        (clock ti - start)))).1
                      (A.act obs (n + 1) (max 0 (execution_timeout -
                        (clock ti - start)))).2).1) (ti + 2) p.1 p.2 u5 v
                      j a rw hrec htr5
                    refine ⟨?_, ?_, ?_⟩
                    · intro ch0 hch0
                      exact List.mem_cons_of_mem _ (List.mem_cons_of_mem _
                        (List.mem_cons_of_mem _ (List.mem_cons_of_mem _
                          (List.mem_cons_of_mem _ (hres.1 ch0 hch0)))))
                    · intro fh0 hfh0
                      exact List.mem_cons_of_mem _ (List.mem_cons_of_mem _
                        (List.mem_cons_of_mem _ (List.mem_cons_of_mem _
                          (List.mem_cons_of_mem _ (hres.2.1 fh0 hfh0)))))
                    · intro g0 hg0
                      exact List.mem_cons_of_mem _ (List.mem_cons_of_mem _
                        (List.mem_cons_of_mem _ (List.mem_cons_of_mem _
                          (List.mem_cons_of_mem _ (hres.2.2 g0 hg0)))))

theorem oa_persist_before_env_aux {Obs Params Json : Type}
    (A : OaAgentM Obs Params Json) (E : EnvM Obs Params)
    (execution_timeout : Int) (clock : Nat → Int) (start : Int) :
    ∀ (r i : Nat) (obs : Option Obs) (ti : Nat) (rend : RunEnd)
      (tr u v : List (MEvent Json)) (j : Nat) (a : String) (rw : Int),
      runOaAux A E execution_timeout clock start r i obs ti =
        Except.ok (rend, tr) →
      tr = u ++ MEvent.envStep j a rw :: v →
      (∀ ch, A.history_to_save = some ch →
        MEvent.persist j HFile.trajF (ch (j + 1)) ∈ u) ∧
      (∀ fh, A.fix_parse_history = some fh →
        MEvent.persist j HFile.fixF (fh (j + 1)) ∈ u) ∧
      (∀ g, A.cost_history = some g →
        MEvent.persist j HFile.costF (g (j + 1)) ∈ u) := by
  intro r
  induction r with
  | zero =>
    intro i obs ti rend tr u v j a rw h htr
    simp only [runOaAux, Except.ok.injEq, Prod.mk.injEq] at h
    rw [← h.2] at htr
    rcases u with _ | ⟨e, u⟩ <;> simp at htr
  | succ n ih =>
    intro i obs ti rend tr u v j a rw h htr
    simp only [runOaAux] at h
    split at h
    · simp only [Except.ok.injEq, Prod.mk.injEq] at h
      rw [← h.2] at htr
      rcases split_cons_cases htr with ⟨-, h1, -⟩ | ⟨u2, -, h2⟩
      · exact absurd h1 (by simp)
      · rcases u2 with _ | ⟨e2, u2⟩ <;>
          exact absurd h2.symm (List.cons_ne_nil _ _)
    · split at h
      · simp only [Except.ok.injEq, Prod.mk.injEq] at h
        rw [← h.2] at htr
        rcases split_cons_cases htr with ⟨-, h1, -⟩ | ⟨u2, -, h2⟩
        · exact absurd h1 (by simp)
        · rcases u2 with _ | ⟨e2, u2⟩ <;>
            exact absurd h2.symm (List.cons_ne_nil _ _)
      · split at h
        · simp at h
        · rename_i ch heq1
          split at h
          · simp at h
          · rename_i fh heq2
            split at h
            · simp at h
            · rename_i costh heq3
              split at h
              · -- time exhausted after the full step
                simp only [Except.ok.injEq, Prod.mk.injEq] at h
                rw [← h.2] at htr
                rcases split_cons_cases htr with ⟨rfl, h1, -⟩ | ⟨u1, rfl, htr1⟩
                · exact absurd h1 (by simp)
                rcases split_cons_cases htr1 with ⟨rfl, h1, -⟩ | ⟨u2, rfl, htr2⟩
                · exact absurd h1 (by simp)
                rcases split_cons_cases htr2 with ⟨rfl, h1, -⟩ | ⟨u3, rfl, htr3⟩
                · exact absurd h1 (by simp)
                rcases split_cons_cases htr3 with ⟨rfl, h1, -⟩ | ⟨u4, rfl, htr4⟩
                · exact absurd h1 (by simp)
                rcases split_cons_cases htr4 with ⟨rfl, h1, -⟩ | ⟨u5, rfl, htr5⟩
                · injection h1 with hji hja hjr
                  refine ⟨?_, ?_, ?_⟩
                  · intro ch0 hch0
                    rw [heq1] at hch0
                    injection hch0 with hch
                    rw [← hch, ← hji]
                    simp
                  · intro fh0 hfh0
                    rw [heq2] at hfh0
                    injection hfh0 with hfh
                    rw [← hfh, ← hji]
                    simp
                  · intro g0 hg0
                    rw [heq3] at hg0
                    injection hg0 with hg
                    rw [← hg, ← hji]
                    simp
                · rcases u5 with _ | ⟨e5, u5⟩ <;>
                    exact absurd htr5.symm (List.cons_ne_nil _ _)
              · -- recursive case
                split at h
                · simp at h
                · rename_i p hrec
                  simp only [Except.ok.injEq, Prod.mk.injEq] at h
                  rw [← h.2] at htr
                  simp only [List.cons_append, List.nil_append] at htr
                  rcases split_cons_cases htr with ⟨rfl, h1, -⟩ | ⟨u1, rfl, htr1⟩
                  · exact absurd h1 (by simp)
                  rcases split_cons_cases htr1 with ⟨rfl, h1, -⟩ | ⟨u2, rfl, htr2⟩
                  · exact absurd h1 (by simp)
                  rcases split_cons_cases htr2 with ⟨rfl, h1, -⟩ | ⟨u3, rfl, htr3⟩
                  · exact absurd h1 (by simp)
                  rcases split_cons_cases htr3 with ⟨rfl, h1, -⟩ | ⟨u4, rfl, htr4⟩
                  · exact absurd h1 (by simp)
                  rcases split_cons_cases htr4 with ⟨rfl, h1, -⟩ | ⟨u5, rfl, htr5⟩
                  · injection h1 with hji hja hjr
                    refine ⟨?_, ?_, ?_⟩
                    · intro ch0 hch0
                      rw [heq1] at hch0
                      injection hch0 with hch
                      rw [← hch, ← hji]
                      simp
                    · intro fh0 hfh0
                      rw [heq2] at hfh0
                      injection hfh0 with hfh
                      rw [← hfh, ← hji]
                      simp
                    · intro g0 hg0
                      rw [heq3] at hg0
                      injection hg0 with hg
                      rw [← hg, ← hji]
                      simp
                  · have hres := ih (i + 1) (some (E.step i
                      (A.act obs (n + 1) (max 0 (execution_timeout -
                        (clock ti - start)))).1
                      (A.act obs (n + 1) (max 0 (execution_timeout -
                        (clock ti - start)))).2).1) (ti + 2) p.1 p.2 u5 v
                      j a rw hrec htr5
                    refine ⟨?_, ?_, ?_⟩
                    · intro ch0 hch0
                      exact List.mem_cons_of_mem _ (List.mem_cons_of_mem _
                        (List.mem_cons_of_mem _ (List.mem_cons_of_mem _
                          (List.mem_cons_of_mem _ (hres.1 ch0 hch0)))))
                    · intro fh0 hfh0
                      exact List.mem_cons_of_mem _ (List.mem_cons_of_mem _
                        (List.mem_cons_of_mem _ (List.mem_cons_of_mem _
                          (List.mem_cons_of_mem _ (hres.2.1 fh0 hfh0)))))
                    · intro g0 hg0
                      exact List.mem_cons_of_mem _ (List.mem_cons_of_mem _
                        (List.mem_cons_of_mem _ (List.mem_cons_of_mem _
                          (List.mem_cons_of_mem _ (hres.2.2 g0 hg0)))))

/-- C3: in both the MLE and the OpenAI runner, the three history mappings
are dumped wholesale to their files strictly before `env.step` is called:
wherever an environment-step event (carrying the observed reward) occurs
in a run's trace, the persist events holding the histories through that
step's chosen action (the history state after that iteration's `act`
call) occur strictly before it. -/
theorem histories_persisted_before_env_step :
    (∀ (Obs Params Json : Type) (A : MleAgentM Obs Params Json)
       (E : EnvM Obs Params) (max_steps : Nat) (execution_timeout : Int)
       (clock : Nat → Int) (rend : RunEnd) (tr u v : List (MEvent Json))
       (j : Nat) (a : String) (rw : Int),
       run_mle_agent A E max_steps execution_timeout clock =
         Except.ok (rend, tr) →
       tr = u ++ MEvent.envStep j a rw :: v →
       (∀ ch, A.conversation_history = some ch →
         MEvent.persist j HFile.trajF (ch (j + 1)) ∈ u) ∧
       (∀ fh, A.fix_parse_history = some fh →
         MEvent.persist j HFile.fixF (fh (j + 1)) ∈ u) ∧
       (∀ g, A.cost_history = some g →
         MEvent.persist j HFile.costF (g (j + 1)) ∈ u)) ∧
    (∀ (Obs Params Json : Type) (A : OaAgentM Obs Params Json)
       (E : EnvM Obs Params) (max_steps : Nat) (execution_timeout : Int)
       (clock : Nat → Int) (rend : RunEnd) (tr u v : List (MEvent Json))
       (j : Nat) (a : String) (rw : Int),
       run_openai_agent A E max_steps execution_timeout clock =
         Except.ok (rend, tr) →
       tr = u ++ MEvent.envStep j a rw :: v →
       (∀ ch, A.history_to_save = some ch →
         MEvent.persist j HFile.trajF (ch (j + 1)) ∈ u) ∧
       (∀ fh, A.fix_parse_history = some fh →
         MEvent.persist j HFile.fixF (fh (j + 1)) ∈ u) ∧
       (∀ g, A.cost_history = some g →
         MEvent.persist j HFile.costF (g (j + 1)) ∈ u)) := by
  constructor
  · intro Obs Params Json A E ms tmo clock rend tr u v j a rw h htr
    exact mle_persist_before_env_aux A E tmo clock (clock 0) ms 0 none 1
      rend tr u v j a rw h htr
  · intro Obs Params Json A E ms tmo clock rend tr u v j a rw h htr
    exact oa_persist_before_env_aux A E tmo clock (clock 0) ms 0 none 1
      rend tr u v j a rw h htr

/-- C3 witness: the one-step MLE and OpenAI runs on `exMleStepAgent` /
`exOaStepAgent` produce the trace `exTrB`, and the persist events for
step 0 indeed occur in the prefix `exTrBu` before the environment step. -/
theorem histories_persisted_before_env_step_witness :
    MEvent.persist 0 HFile.trajF 1 ∈ exTrBu ∧
    MEvent.persist 0 HFile.costF 100 ∈ exTrBu ∧
    MEvent.persist 0 HFile.trajF 1 ∈ exTrBu ∧
    MEvent.persist 0 HFile.fixF 10 ∈ exTrBu := by
  have h1 := histories_persisted_before_env_step.1 Nat Nat Nat
    exMleStepAgent exEnv 1 100 exClock0 RunEnd.stepsExhausted exTrB exTrBu
    [] 0 "execute_code" 7 rfl rfl
  have h2 := histories_persisted_before_env_step.2 Nat Nat Nat
    exOaStepAgent exEnv 1 100 exClock0 RunEnd.stepsExhausted exTrB exTrBu
    [] 0 "execute_code" 7 rfl rfl
  exact ⟨h1.1 _ rfl, h1.2.2 _ rfl, h2.1 _ rfl, h2.2.1 _ rfl⟩

theorem exists_split_five {Json : Type} (e1 e2 e3 e4 : MEvent Json)
    (k : Nat) (a : String) (rw : Int) :
    ∃ (tr2 : List (MEvent Json)) (k2 : Nat) (a2 : String) (rw2 : Int),
      [e1, e2, e3, e4, MEvent.envStep k a rw] =
        tr2 ++ [MEvent.envStep k2 a2 rw2] :=
  ⟨[e1, e2, e3, e4], k, a, rw, rfl⟩

theorem append_split_shift {γ : Type} {xs ys zs : List γ} {x : γ}
    (h : ys = zs ++ [x]) : xs ++ ys = (xs ++ zs) ++ [x] := by
  rw [h, List.append_assoc]

theorem exists_tail_split {γ : Type} {tr xs ys zs : List γ} {x : γ}
    (htr : xs ++ ys = tr) (h : ys = zs ++ [x]) :
    ∃ u, tr = u ++ [x] ∧ u = xs ++ zs := by
  refine ⟨xs ++ zs, ?_, rfl⟩
  rw [← htr, h, List.append_assoc]

theorem mle_time_flow_aux {Obs Params Json : Type}
    (A : MleAgentM Obs Params Json) (E : EnvM Obs Params)
    (execution_timeout : Int) (clock : Nat → Int) (start : Int) :
    ∀ (r i : Nat) (obs : Option Obs) (ti : Nat) (rend : RunEnd)
      (tr : List (MEvent Json)),
      runMleAux A E execution_timeout clock start r i obs ti =
        Except.ok (rend, tr) →
      ((∀ (k s : Nat) (tl : Int) (a : String),
          MEvent.agentAct k s tl a ∈ tr →
          ∃ m, tl = max 0 (execution_timeout - (clock m - start))) ∧
       (rend = RunEnd.timeExhausted →
          ∃ (tr2 : List (MEvent Json)) (k : Nat) (a : String) (rw : Int),
            tr = tr2 ++ [MEvent.envStep k a rw])) := by
  intro r
  induction r with
  | zero =>
    intro i obs ti rend tr h
    simp only [runMleAux, Except.ok.injEq, Prod.mk.injEq] at h
    constructor
    · intro k s tl a hm
      rw [← h.2] at hm
      simp at hm
    · intro hrend
      rw [← h.1] at hrend
      simp at hrend
  | succ n ih =>
    intro i obs ti rend tr h
    simp only [runMleAux] at h
    split at h
    · simp only [Except.ok.injEq, Prod.mk.injEq] at h
      constructor
      · intro k s tl a hm
        rw [← h.2] at hm
        simp only [List.mem_singleton] at hm
        injection hm with hk hs htl ha
        exact ⟨ti, htl⟩
      · intro hrend
        rw [← h.1] at hrend
        simp at hrend
    · split at h
      · simp only [Except.ok.injEq, Prod.mk.injEq] at h
        constructor
        · intro k s tl a hm
          rw [← h.2] at hm
          simp only [List.mem_singleton] at hm
          injection hm with hk hs htl ha
          exact ⟨ti, htl⟩
        · intro hrend
          rw [← h.1] at hrend
          simp at hrend
      · split at h
        · simp at h
        · split at h
          · simp at h
          · split at h
            · simp at h
            · split at h
              · simp only [Except.ok.injEq, Prod.mk.injEq] at h
                constructor
                · intro k s tl a hm
                  rw [← h.2] at hm
                  simp only [List.mem_cons, List.mem_singleton] at hm
                  rcases hm with hm | hm | hm | hm | hm
                  · injection hm with hk hs htl ha
                    exact ⟨ti, htl⟩
                  · exact absurd hm (by simp)
                  · exact absurd hm (by simp)
                  · exact absurd hm (by simp)
                  · exact absurd hm (by simp)
                · intro hrend
                  rw [← h.2]
                  exact exists_split_five _ _ _ _ _ _ _
              · split at h
                · simp at h
                · rename_i p hrec
                  simp only [Except.ok.injEq, Prod.mk.injEq] at h
                  have hih := ih (i + 1) _ (ti + 2) p.1 p.2 hrec
                  constructor
                  · intro k s tl a hm
                    rw [← h.2] at hm
                    rcases List.mem_append.mp hm with hm | hm
                    · simp only [List.mem_cons, List.mem_singleton] at hm
                      rcases hm with hm | hm | hm | hm | hm
                      · injection hm with hk hs htl ha
                        exact ⟨ti, htl⟩
                      · exact absurd hm (by simp)
                      · exact absurd hm (by simp)
                      · exact absurd hm (by simp)
                      · exact absurd hm (by simp)
                    · exact hih.1 k s tl a hm
                  · intro hrend
                    rw [← h.1] at hrend
                    obtain ⟨tr2, k, a, rw2, htr2⟩ := hih.2 hrend
                    rw [← h.2]
                    exact ⟨_, k, a, rw2, append_split_shift htr2⟩

/-- C5 (amended): at every iteration the MLE runner does compute
`time_left = max(0, execution_timeout − elapsed)` and passes it to the
agent (every agent-act event's recorded `time_left` has exactly this
form), but the time-exhaustion check happens only AFTER the environment
step: a run that ends time-exhausted always ends immediately after a
completed environment step, never before the agent is asked.  (A zero
`time_left` at the top of an iteration does not prevent that iteration's
agent call or environment step — see the counterexample.) -/
theorem time_left_formula_and_late_time_check :
    ∀ (Obs Params Json : Type) (A : MleAgentM Obs Params Json)
      (E : EnvM Obs Params) (max_steps : Nat) (execution_timeout : Int)
      (clock : Nat → Int) (rend : RunEnd) (tr : List (MEvent Json)),
      run_mle_agent A E max_steps execution_timeout clock =
        Except.ok (rend, tr) →
      ((∀ (k s : Nat) (tl : Int) (a : String),
          MEvent.agentAct k s tl a ∈ tr →
          ∃ m, tl = max 0 (execution_timeout - (clock m - clock 0))) ∧
       (rend = RunEnd.timeExhausted →
          ∃ (tr2 : List (MEvent Json)) (k : Nat) (a : String) (rw : Int),
            tr = tr2 ++ [MEvent.envStep k a rw])) := by
  intro Obs Params Json A E ms tmo clock rend tr h
  exact mle_time_flow_aux A E tmo clock (clock 0) ms 0 none 1 rend tr h

/-- C5 counterexample: in the concrete run
`run_mle_agent exMleStepAgent exEnv 2 10 exClockA`, the second
iteration's top-of-loop `time_left` is `max 0 (10 − 12) = 0`, yet the
agent is still asked for an action (the trace contains
`agentAct 1 1 0 "execute_code"`) and a full environment step is taken
(`envStep 1` is in the trace): the run does NOT terminate with the
time-exhausted outcome before the agent is asked. -/
theorem time_left_zero_does_not_stop_agent_cex :
    run_mle_agent exMleStepAgent exEnv 2 10 exClockA =
      Except.ok (RunEnd.timeExhausted, exTrA) ∧
    max 0 (10 - (exClockA 3 - exClockA 0)) = 0 ∧
    MEvent.agentAct 1 1 0 "execute_code" ∈ exTrA ∧
    MEvent.envStep 1 "execute_code" 7 ∈ exTrA := by
  exact ⟨rfl, by decide, by decide, by decide⟩

/-- C5 amended witness: instantiated on the two-iteration run of
`exMleStepAgent` over `exClockA`. -/
theorem time_left_formula_and_late_time_check_witness :
    (∃ m, (0 : Int) = max 0 (10 - (exClockA m - exClockA 0))) ∧
    ∃ (tr2 : List (MEvent Nat)) (k : Nat) (a : String) (rw : Int),
      exTrA = tr2 ++ [MEvent.envStep k a rw] := by
  have h := time_left_formula_and_late_time_check Nat Nat Nat
    exMleStepAgent exEnv 2 10 exClockA RunEnd.timeExhausted exTrA rfl
  exact ⟨h.1 1 1 0 "execute_code" (by decide), h.2 rfl⟩

theorem mle_stop_immediate_aux {Obs Params Json : Type}
    (A : MleAgentM Obs Params Json) (E : EnvM Obs Params)
    (execution_timeout : Int) (clock : Nat → Int) (start : Int) :
    ∀ (r i : Nat) (obs : Option Obs) (ti : Nat) (rend : RunEnd)
      (tr : List (MEvent Json)),
      runMleAux A E execution_timeout clock start r i obs ti =
        Except.ok (rend, tr) →
      (∀ e ∈ tr, i ≤ MEvent.idx e) ∧
      (∀ (k s : Nat) (tl : Int) (a : String),
        MEvent.agentAct k s tl a ∈ tr → a = "End" ∨ a = "Error" →
        (a = "End" → rend = RunEnd.agentEnd) ∧
        (a = "Error" → rend = RunEnd.agentError) ∧
        ∃ u, tr = u ++ [MEvent.agentAct k s tl a] ∧
          ∀ e ∈ u, MEvent.idx e < k) := by
  intro r
  induction r with
  | zero =>
    intro i obs ti rend tr h
    simp only [runMleAux, Except.ok.injEq, Prod.mk.injEq] at h
    constructor
    · intro e he
      rw [← h.2] at he
      simp at he
    · intro k s tl a hm hEnd
      rw [← h.2] at hm
      simp at hm
  | succ n ih =>
    intro i obs ti rend tr h
    simp only [runMleAux] at h
    split at h
    · rename_i hcond
      simp only [Except.ok.injEq, Prod.mk.injEq] at h
      constructor
      · intro e he
        rw [← h.2] at he
        simp only [List.mem_singleton] at he
        rw [he]
        exact le_refl i
      · intro k s tl a hm hEnd
        rw [← h.2] at hm
        simp only [List.mem_singleton] at hm
        injection hm with hk hs htl ha
        subst hk
        subst hs
        subst htl
        subst ha
        have hstr : (A.act obs (n + 1)
            (max 0 (execution_timeout - (clock ti - start)))).1 = "Error" :=
          eq_of_beq hcond
        refine ⟨?_, ?_, [], ?_, ?_⟩
        · intro h2
          rw [hstr] at h2
          exact absurd h2 (by decide)
        · intro _
          exact h.1.symm
        · rw [List.nil_append, ← h.2]
        · intro e he
          simp at he
    · split at h
      · rename_i hcond
        simp only [Except.ok.injEq, Prod.mk.injEq] at h
        constructor
        · intro e he
          rw [← h.2] at he
          simp only [List.mem_singleton] at he
          rw [he]
          exact le_refl i
        · intro k s tl a hm hEnd
          rw [← h.2] at hm
          simp only [List.mem_singleton] at hm
          injection hm with hk hs htl ha
          subst hk
          subst hs
          subst htl
          subst ha
          refine ⟨?_, ?_, [], ?_, ?_⟩
          · intro _
            exact h.1.symm
          · intro h2
            have hstr : (A.act obs (n + 1)
                (max 0 (execution_timeout - (clock ti - start)))).1 = "End" :=
              eq_of_beq hcond
            rw [hstr] at h2
            exact absurd h2 (by decide)
          · rw [List.nil_append, ← h.2]
          · intro e he
            simp at he
      · rename_i hbErr hbEnd
        have hneErr : (A.act obs (n + 1)
            (max 0 (execution_timeout - (clock ti - start)))).1 ≠ "Error" := by
          intro hx
          exact hbErr (by rw [hx]; decide)
        have hneEnd : (A.act obs (n + 1)
            (max 0 (execution_timeout - (clock ti - start)))).1 ≠ "End" := by
          intro hx
          exact hbEnd (by rw [hx]; decide)
        split at h
        · simp at h
        · split at h
          · simp at h
          · split at h
            · simp at h
            · split at h
              · simp only [Except.ok.injEq, Prod.mk.injEq] at h
                constructor
                · intro e he
                  rw [← h.2] at he
                  simp only [List.mem_cons, List.mem_singleton] at he
                  rcases he with rfl | rfl | rfl | rfl | rfl | he
                  · exact le_refl i
                  · exact le_refl i
                  · exact le_refl i
                  · exact le_refl i
                  · exact le_refl i
                  · simp at he
                · intro k s tl a hm hEnd
                  rw [← h.2] at hm
                  simp only [List.mem_cons, List.mem_singleton] at hm
                  rcases hm with hm | hm | hm | hm | hm
                  · injection hm with hk hs htl ha
                    rcases hEnd with h2 | h2
                    · rw [h2] at ha
                      exact absurd ha.symm hneEnd
                    · rw [h2] at ha
                      exact absurd ha.symm hneErr
                  · exact absurd hm (by simp)
                  · exact absurd hm (by simp)
                  · exact absurd hm (by simp)
                  · exact absurd hm (by simp)
              · split at h
                · simp at h
                · rename_i p hrec
                  simp only [Except.ok.injEq, Prod.mk.injEq] at h
                  have hih := ih (i + 1) _ (ti + 2) p.1 p.2 hrec
                  constructor
                  · intro e he
                    rw [← h.2] at he
                    rcases List.mem_append.mp he with he | he
                    · simp only [List.mem_cons, List.mem_singleton] at he
                      rcases he with rfl | rfl | rfl | rfl | rfl | he
                      · exact le_refl i
                      · exact le_refl i
                      · exact le_refl i
                      · exact le_refl i
                      · exact le_refl i
                      · simp at he
                    · exact le_trans (Nat.le_succ i) (hih.1 e he)
                  · intro k s tl a hm hEnd
                    rw [← h.2] at hm
                    rcases List.mem_append.mp hm with hm | hm
                    · simp only [List.mem_cons, List.mem_singleton] at hm
                      rcases hm with hm | hm | hm | hm | hm
                      · injection hm with hk hs htl ha
                        rcases hEnd with h2 | h2
                        · rw [h2] at ha
                          exact absurd ha.symm hneEnd
                        · rw [h2] at ha
                          exact absurd ha.symm hneErr
                      · exact absurd hm (by simp)
                      · exact absurd hm (by simp)
                      · exact absurd hm (by simp)
                      · exact absurd hm (by simp)
                    · obtain ⟨i1, i2, u2, hu2, hlt⟩ := hih.2 k s tl a hm hEnd
                      have hik : i < k :=
                        lt_of_lt_of_le (Nat.lt_succ_self i) (hih.1 _ hm)
                      obtain ⟨u3, hu3, hu3e⟩ := exists_tail_split h.2 hu2
                      refine ⟨?_, ?_, u3, hu3, ?_⟩
                      · intro h2
                        rw [← h.1]
                        exact i1 h2
                      · intro h2
                        rw [← h.1]
                        exact i2 h2
                      · intro e he
                        rw [hu3e] at he
                        rcases List.mem_append.mp he with he | he
                        · simp only [List.mem_cons, List.mem_singleton] at he
                          rcases he with rfl | rfl | rfl | rfl | rfl | he
                          · exact hik
                          · exact hik
                          · exact hik
                          · exact hik
                          · exact hik
                          · simp at he
                        · exact hlt e he

theorem oa_stop_immediate_aux {Obs Params Json : Type}
    (A : OaAgentM Obs Params Json) (E : EnvM Obs Params)
    (execution_timeout : Int) (clock : Nat → Int) (start : Int) :
    ∀ (r i : Nat) (obs : Option Obs) (ti : Nat) (rend : RunEnd)
      (tr : List (MEvent Json)),
      runOaAux A E execution_timeout clock start r i obs ti =
        Except.ok (rend, tr) →
      (∀ e ∈ tr, i ≤ MEvent.idx e) ∧
      (∀ (k s : Nat) (tl : Int) (a : String),
        MEvent.agentAct k s tl a ∈ tr → a = "End" ∨ a = "Error" →
        (a = "End" → rend = RunEnd.agentEnd) ∧
        (a = "Error" → rend = RunEnd.agentError) ∧
        ∃ u, tr = u ++ [MEvent.agentAct k s tl a] ∧
          ∀ e ∈ u, MEvent.idx e < k) := by
  intro r
  induction r with
  | zero =>
    intro i obs ti rend tr h
    simp only [runOaAux, Except.ok.injEq, Prod.mk.injEq] at h
    constructor
    · intro e he
      rw [← h.2] at he
      simp at he
    · intro k s tl a hm hEnd
      rw [← h.2] at hm
      simp at hm
  | succ n ih =>
    intro i obs ti rend tr h
    simp only [runOaAux] at h
    split at h
    · rename_i hcond
      simp only [Except.ok.injEq, Prod.mk.injEq] at h
      constructor
      · intro e he
        rw [← h.2] at he
        simp only [List.mem_singleton] at he
        rw [he]
        exact le_refl i
      · intro k s tl a hm hEnd
        rw [← h.2] at hm
        simp only [List.mem_singleton] at hm
        injection hm with hk hs htl ha
        subst hk
        subst hs
        subst htl
        subst ha
        have hstr : (A.act obs (n + 1)
            (max 0 (execution_timeout - (clock ti - start)))).1 = "Error" :=
          eq_of_beq hcond
        refine ⟨?_, ?_, [], ?_, ?_⟩
        · intro h2
          rw [hstr] at h2
          exact absurd h2 (by decide)
        · intro _
          exact h.1.symm
        · rw [List.nil_append, ← h.2]
        · intro e he
          simp at he
    · split at h
      · rename_i hcond
        simp only [Except.ok.injEq, Prod.mk.injEq] at h
        constructor
        · intro e he
          rw [← h.2] at he
          simp only [List.mem_singleton] at he
          rw [he]
          exact le_refl i
        · intro k s tl a hm hEnd
          rw [← h.2] at hm
          simp only [List.mem_singleton] at hm
          injection hm with hk hs htl ha
          subst hk
          subst hs
          subst htl
          subst ha
          refine ⟨?_, ?_, [], ?_, ?_⟩
          · intro _
            exact h.1.symm
          · intro h2
            have hstr : (A.act obs (n + 1)
                (max 0 (execution_timeout - (clock ti - start)))).1 = "End" :=
              eq_of_beq hcond
            rw [hstr] at h2
            exact absurd h2 (by decide)
          · rw [List.nil_append, ← h.2]
          · intro e he
            simp at he
      · rename_i hbErr hbEnd
        have hneErr : (A.act obs (n + 1)
            (max 0 (execution_timeout - (clock ti - start)))).1 ≠ "Error" := by
          intro hx
          exact hbErr (by rw [hx]; decide)
        have hneEnd : (A.act obs (n + 1)
            (max 0 (execution_timeout - (clock ti - start)))).1 ≠ "End" := by
          intro hx
          exact hbEnd (by rw [hx]; decide)
        split at h
        · simp at h
        · split at h
          · simp at h
          · split at h
            · simp at h
            · split at h
              · simp only [Except.ok.injEq, Prod.mk.injEq] at h
                constructor
                · intro e he
                  rw [← h.2] at he
                  simp only [List.mem_cons, List.mem_singleton] at he
                  rcases he with rfl | rfl | rfl | rfl | rfl | he
                  · exact le_refl i
                  · exact le_refl i
                  · exact le_refl i
                  · exact le_refl i
                  · exact le_refl i
                  · simp at he
                · intro k s tl a hm hEnd
                  rw [← h.2] at hm
                  simp only [List.mem_cons, List.mem_singleton] at hm
                  rcases hm with hm | hm | hm | hm | hm
                  · injection hm with hk hs htl ha
                    rcases hEnd with h2 | h2
                    · rw [h2] at ha
                      exact absurd ha.symm hneEnd
                    · rw [h2] at ha
                      exact absurd ha.symm hneErr
                  · exact absurd hm (by simp)
                  · exact absurd hm (by simp)
                  · exact absurd hm (by simp)
                  · exact absurd hm (by simp)
              · split at h
                · simp at h
                · rename_i p hrec
                  simp only [Except.ok.injEq, Prod.mk.injEq] at h
                  have hih := ih (i + 1) _ (ti + 2) p.1 p.2 hrec
                  constructor
                  · intro e he
                    rw [← h.2] at he
                    rcases List.mem_append.mp he with he | he
                    · simp only [List.mem_cons, List.mem_singleton] at he
                      rcases he with rfl | rfl | rfl | rfl | rfl | he
                      · exact le_refl i
                      · exact le_refl i
                      · exact le_refl i
                      · exact le_refl i
                      · exact le_refl i
                      · simp at he
                    · exact le_trans (Nat.le_succ i) (hih.1 e he)
                  · intro k s tl a hm hEnd
                    rw [← h.2] at hm
                    rcases List.mem_append.mp hm with hm | hm
                    · simp only [List.mem_cons, List.mem_singleton] at hm
                      rcases hm with hm | hm | hm | hm | hm
                      · injection hm with hk hs htl ha
                        rcases hEnd with h2 | h2
                        · rw [h2] at ha
                          exact absurd ha.symm hneEnd
                        · rw [h2] at ha
                          exact absurd ha.symm hneErr
                      · exact absurd hm (by simp)
                      · exact absurd hm (by simp)
                      · exact absurd hm (by simp)
                      · exact absurd hm (by simp)
                    · obtain ⟨i1, i2, u2, hu2, hlt⟩ := hih.2 k s tl a hm hEnd
                      have hik : i < k :=
                        lt_of_lt_of_le (Nat.lt_succ_self i) (hih.1 _ hm)
                      obtain ⟨u3, hu3, hu3e⟩ := exists_tail_split h.2 hu2
                      refine ⟨?_, ?_, u3, hu3, ?_⟩
                      · intro h2
                        rw [← h.1]
                        exact i1 h2
                      · intro h2
                        rw [← h.1]
                        exact i2 h2
                      · intro e he
                        rw [hu3e] at he
                        rcases List.mem_append.mp he with he | he
                        · simp only [List.mem_cons, List.mem_singleton] at he
                          rcases he with rfl | rfl | rfl | rfl | rfl | he
                          · exact hik
                          · exact hik
                          · exact hik
                          · exact hik
                          · exact hik
                          · simp at he
                        · exact hlt e he

/-- C6 (amended): the `"Error"`/`"End"` action checks exist only in the
MLE and OpenAI runners, where they terminate the run immediately — at ANY
iteration, not just the first: whenever a trace of either runner contains
an agent-act event whose action is `"End"` (resp. `"Error"`), the run
ended with the matching terminal reason `agentEnd` (resp. `agentError`),
that event is the very last event of the run, and no history persist and
no environment step of that iteration exists anywhere in the trace
(conjuncts 5 and 6); in particular a first-call `"End"`/`"Error"` leaves
the trace with a single agent-act event, 0 environment steps and 0
persisted entries (conjuncts 1-3).  The dummy runner performs no
action-tag check at all: in any iteration it enters, it applies the
agent's action to the environment whatever the tag is (conjunct 4). -/
theorem stop_and_error_checks_mle_openai_only :
    (∀ (Obs Params Json : Type) (A : MleAgentM Obs Params Json)
       (E : EnvM Obs Params) (r : Nat) (execution_timeout : Int)
       (clock : Nat → Int),
       (A.act none (r + 1)
           (max 0 (execution_timeout - (clock 1 - clock 0)))).1 = "End" →
       run_mle_agent A E (r + 1) execution_timeout clock =
         Except.ok (RunEnd.agentEnd,
           [MEvent.agentAct 0 (r + 1)
             (max 0 (execution_timeout - (clock 1 - clock 0))) "End"])) ∧
    (∀ (Obs Params Json : Type) (A : MleAgentM Obs Params Json)
       (E : EnvM Obs Params) (r : Nat) (execution_timeout : Int)
       (clock : Nat → Int),
       (A.act none (r + 1)
           (max 0 (execution_timeout - (clock 1 - clock 0)))).1 = "Error" →
       run_mle_agent A E (r + 1) execution_timeout clock =
         Except.ok (RunEnd.agentError,
           [MEvent.agentAct 0 (r + 1)
             (max 0 (execution_timeout - (clock 1 - clock 0))) "Error"])) ∧
    (∀ (Obs Params Json : Type) (A : OaAgentM Obs Params Json)
       (E : EnvM Obs Params) (r : Nat) (execution_timeout : Int)
       (clock : Nat → Int),
       (A.act none (r + 1)
           (max 0 (execution_timeout - (clock 1 - clock 0)))).1 = "End" →
       run_openai_agent A E (r + 1) execution_timeout clock =
         Except.ok (RunEnd.agentEnd,
           [MEvent.agentAct 0 (r + 1)
             (max 0 (execution_timeout - (clock 1 - clock 0))) "End"])) ∧
    (∀ (Obs Params Json : Type) (D : DummyAgentM Obs Params Json)
       (E : EnvM Obs Params) (m : Nat) (execution_timeout : Int)
       (clock : Nat → Int),
       clock 1 - clock 0 < execution_timeout →
       DEvent.envStep (D.act none).1
           (E.step 0 (D.act none).1 (D.act none).2).2 ∈
         (run_dummy_agent D E (m + 1) execution_timeout clock).2) ∧
    (∀ (Obs Params Json : Type) (A : MleAgentM Obs Params Json)
       (E : EnvM Obs Params) (max_steps : Nat) (execution_timeout : Int)
       (clock : Nat → Int) (rend : RunEnd) (tr : List (MEvent Json))
       (k s : Nat) (tl : Int) (a : String),
       run_mle_agent A E max_steps execution_timeout clock =
         Except.ok (rend, tr) →
       a = "End" ∨ a = "Error" →
       MEvent.agentAct k s tl a ∈ tr →
       (a = "End" → rend = RunEnd.agentEnd) ∧
       (a = "Error" → rend = RunEnd.agentError) ∧
       (∃ u : List (MEvent Json), tr = u ++ [MEvent.agentAct k s tl a] ∧
         ∀ e ∈ u, MEvent.idx e < k) ∧
       (∀ (f : HFile) (c : Json), MEvent.persist k f c ∉ tr) ∧
       (∀ (a2 : String) (rw : Int), MEvent.envStep k a2 rw ∉ tr)) ∧
    (∀ (Obs Params Json : Type) (A : OaAgentM Obs Params Json)
       (E : EnvM Obs Params) (max_steps : Nat) (execution_timeout : Int)
       (clock : Nat → Int) (rend : RunEnd) (tr : List (MEvent Json))
       (k s : Nat) (tl : Int) (a : String),
       run_openai_agent A E max_steps execution_timeout clock =
         Except.ok (rend, tr) →
       a = "End" ∨ a = "Error" →
       MEvent.agentAct k s tl a ∈ tr →
       (a = "End" → rend = RunEnd.agentEnd) ∧
       (a = "Error" → rend = RunEnd.agentError) ∧
       (∃ u : List (MEvent Json), tr = u ++ [MEvent.agentAct k s tl a] ∧
         ∀ e ∈ u, MEvent.idx e < k) ∧
       (∀ (f : HFile) (c : Json), MEvent.persist k f c ∉ tr) ∧
       (∀ (a2 : String) (rw : Int), MEvent.envStep k a2 rw ∉ tr)) := by
  refine ⟨?_, ?_, ?_, ?_, ?_, ?_⟩
  · intro Obs Params Json A E r tmo clock hEnd
    simp only [run_mle_agent, runMleAux]
    rw [hEnd]
    rw [if_neg (by decide), if_pos (by decide)]
  · intro Obs Params Json A E r tmo clock hErr
    simp only [run_mle_agent, runMleAux]
    rw [hErr]
    rw [if_pos (by decide)]
  · intro Obs Params Json A E r tmo clock hEnd
    simp only [run_openai_agent, runOaAux]
    rw [hEnd]
    rw [if_neg (by decide), if_pos (by decide)]
  · intro Obs Params Json D E m tmo clock hlt
    simp only [run_dummy_agent, runDummyAux]
    rw [if_neg (not_le.mpr hlt)]
    exact List.mem_append_left _ (List.mem_cons_of_mem _
      (List.mem_append_right _ (List.mem_singleton.mpr rfl)))
  · intro Obs Params Json A E ms tmo clock rend tr k s tl a h hEnd hm
    obtain ⟨i1, i2, u, hu, hlt⟩ :=
      (mle_stop_immediate_aux A E tmo clock (clock 0) ms 0 none 1 rend tr
        h).2 k s tl a hm hEnd
    refine ⟨i1, i2, ⟨u, hu, hlt⟩, ?_, ?_⟩
    · intro f c hmem
      rw [hu] at hmem
      rcases List.mem_append.mp hmem with hmem | hmem
      · exact absurd (hlt _ hmem) (Nat.lt_irrefl k)
      · simp at hmem
    · intro a2 rw2 hmem
      rw [hu] at hmem
      rcases List.mem_append.mp hmem with hmem | hmem
      · exact absurd (hlt _ hmem) (Nat.lt_irrefl k)
      · simp at hmem
  · intro Obs Params Json A E ms tmo clock rend tr k s tl a h hEnd hm
    obtain ⟨i1, i2, u, hu, hlt⟩ :=
      (oa_stop_immediate_aux A E tmo clock (clock 0) ms 0 none 1 rend tr
        h).2 k s tl a hm hEnd
    refine ⟨i1, i2, ⟨u, hu, hlt⟩, ?_, ?_⟩
    · intro f c hmem
      rw [hu] at hmem
      rcases List.mem_append.mp hmem with hmem | hmem
      · exact absurd (hlt _ hmem) (Nat.lt_irrefl k)
      · simp at hmem
    · intro a2 rw2 hmem
      rw [hu] at hmem
      rcases List.mem_append.mp hmem with hmem | hmem
      · exact absurd (hlt _ hmem) (Nat.lt_irrefl k)
      · simp at hmem

/-- C6 counterexample: the dummy runner on `exDummyEndAgent` (whose first
and only action is `("End", 0)`) still takes an environment step with the
`"End"` action: the run has one environment step, not zero, so the claim's
"for every agent-runner variant ... no environment step is taken" is
false for the dummy runner. -/
theorem dummy_runner_steps_on_stop_cex :
    run_dummy_agent exDummyEndAgent exEnv 1 100 exClock0 =
      (RunEnd.stepsExhausted,
       [DEvent.agentAct "End", DEvent.envStep "End" 7]) ∧
    DEvent.envStep "End" 7 ∈
      (run_dummy_agent exDummyEndAgent exEnv 1 100 exClock0).2 := by
  exact ⟨rfl, by decide⟩

/-- C6 amended witness: concrete first-call `"End"`/`"Error"` runs of the
MLE and OpenAI runners terminate with the matching reason, a single
agent-act trace entry, no environment step and no persisted entry (the
last two conjuncts instantiate the general any-iteration statements at
these concrete runs); the concrete dummy run still steps the environment
on `"End"`. -/
theorem stop_and_error_checks_witness :
    run_mle_agent exMleEndAgent exEnv 1 50 exClock0 =
      Except.ok (RunEnd.agentEnd, [MEvent.agentAct 0 1 50 "End"]) ∧
    run_mle_agent exMleErrAgent exEnv 1 50 exClock0 =
      Except.ok (RunEnd.agentError, [MEvent.agentAct 0 1 50 "Error"]) ∧
    run_openai_agent exOaEndAgent exEnv 1 50 exClock0 =
      Except.ok (RunEnd.agentEnd, [MEvent.agentAct 0 1 50 "End"]) ∧
    DEvent.envStep "End" 7 ∈
      (run_dummy_agent exDummyEndAgent exEnv 1 50 exClock0).2 ∧
    MEvent.envStep 0 "execute_code" (7 : Int) ∉
      ([MEvent.agentAct 0 1 50 "End"] : List (MEvent Nat)) ∧
    MEvent.persist 0 HFile.costF (3 : Nat) ∉
      ([MEvent.agentAct 0 1 50 "End"] : List (MEvent Nat)) := by
  refine ⟨?_, ?_, ?_, ?_, ?_, ?_⟩
  · exact stop_and_error_checks_mle_openai_only.1 Nat Nat Nat exMleEndAgent
      exEnv 0 50 exClock0 rfl
  · exact stop_and_error_checks_mle_openai_only.2.1 Nat Nat Nat
      exMleErrAgent exEnv 0 50 exClock0 rfl
  · exact stop_and_error_checks_mle_openai_only.2.2.1 Nat Nat Nat
      exOaEndAgent exEnv 0 50 exClock0 rfl
  · exact stop_and_error_checks_mle_openai_only.2.2.2.1 Nat Nat Nat
      exDummyEndAgent exEnv 0 50 exClock0 (by decide)
  · exact (stop_and_error_checks_mle_openai_only.2.2.2.2.1 Nat Nat Nat
      exMleEndAgent exEnv 1 50 exClock0 RunEnd.agentEnd
      [MEvent.agentAct 0 1 50 "End"] 0 1 50 "End" rfl (Or.inl rfl)
      (by decide)).2.2.2.2 "execute_code" 7
  · exact (stop_and_error_checks_mle_openai_only.2.2.2.2.2 Nat Nat Nat
      exOaEndAgent exEnv 1 50 exClock0 RunEnd.agentEnd
      [MEvent.agentAct 0 1 50 "End"] 0 1 50 "End" rfl (Or.inl rfl)
      (by decide)).2.2.2.1 HFile.costF 3

theorem dummy_no_persist_aux {Obs Params Json : Type}
    (D : DummyAgentM Obs Params Json) (E : EnvM Obs Params)
    (execution_timeout : Int) (clock : Nat → Int) (start : Int)
    (h1 : D.conversation_history = none) (h2 : D.fix_parse_history = none)
    (h3 : D.cost_history = none) :
    ∀ (r i : Nat) (obs : Option Obs) (ti : Nat) (f : HFile) (c : Json),
      DEvent.persist f c ∉
        (runDummyAux D E execution_timeout clock start r i obs ti).2 := by
  intro r
  induction r with
  | zero =>
    intro i obs ti f c
    simp [runDummyAux]
  | succ n ih =>
    intro i obs ti f c
    simp only [runDummyAux, h1, h2, h3]
    split
    · simp
    · intro hmem
      simp only [List.nil_append, List.append_nil, List.cons_append,
        List.singleton_append, List.mem_cons] at hmem
      rcases hmem with hmem | hmem | hmem
      · exact absurd hmem (by simp)
      · exact absurd hmem (by simp)
      · exact ih (i + 1) _ (ti + 1) f c hmem

theorem mle_missing_cost_raises {Obs Params Json : Type}
    (A : MleAgentM Obs Params Json) (E : EnvM Obs Params) (r : Nat)
    (execution_timeout : Int) (clock : Nat → Int)
    (hc : A.cost_history = none)
    (hch : A.conversation_history ≠ none)
    (hfh : A.fix_parse_history ≠ none)
    (hne : (A.act none (r + 1)
        (max 0 (execution_timeout - (clock 1 - clock 0)))).1 ≠ "Error")
    (hne2 : (A.act none (r + 1)
        (max 0 (execution_timeout - (clock 1 - clock 0)))).1 ≠ "End") :
    run_mle_agent A E (r + 1) execution_timeout clock =
      Except.error (PyErr.attributeError "cost_history") := by
  obtain ⟨ch, hch2⟩ := Option.ne_none_iff_exists'.mp hch
  obtain ⟨fh, hfh2⟩ := Option.ne_none_iff_exists'.mp hfh
  simp only [run_mle_agent, runMleAux, hch2, hfh2, hc]
  rw [if_neg (by simp only [beq_iff_eq]; exact hne),
    if_neg (by simp only [beq_iff_eq]; exact hne2)]

theorem dummy_skip_missing_aux {Obs Params Json : Type}
    (D : DummyAgentM Obs Params Json) (E : EnvM Obs Params)
    (execution_timeout : Int) (clock : Nat → Int) (start : Int) :
    ∀ (r i : Nat) (obs : Option Obs) (ti : Nat),
      (D.conversation_history = none → ∀ c : Json,
        DEvent.persist HFile.trajF c ∉
          (runDummyAux D E execution_timeout clock start r i obs ti).2) ∧
      (D.fix_parse_history = none → ∀ c : Json,
        DEvent.persist HFile.fixF c ∉
          (runDummyAux D E execution_timeout clock start r i obs ti).2) ∧
      (D.cost_history = none → ∀ c : Json,
        DEvent.persist HFile.costF c ∉
          (runDummyAux D E execution_timeout clock start r i obs ti).2) := by
  intro r
  induction r with
  | zero =>
    intro i obs ti
    refine ⟨?_, ?_, ?_⟩
    · intro h1 c
      simp [runDummyAux]
    · intro h2 c
      simp [runDummyAux]
    · intro h3 c
      simp [runDummyAux]
  | succ n ih =>
    intro i obs ti
    refine ⟨?_, ?_, ?_⟩
    · intro h1 c
      simp only [runDummyAux, h1]
      split
      · simp
      · intro hmem
        rcases hfix : D.fix_parse_history with _ | fh <;>
          rcases hcost : D.cost_history with _ | costh <;>
          simp [hfix, hcost] at hmem <;>
          exact (ih (i + 1) _ (ti + 1)).1 h1 c hmem
    · intro h2 c
      simp only [runDummyAux, h2]
      split
      · simp
      · intro hmem
        rcases hconv : D.conversation_history with _ | ch <;>
          rcases hcost : D.cost_history with _ | costh <;>
          simp [hconv, hcost] at hmem <;>
          exact (ih (i + 1) _ (ti + 1)).2.1 h2 c hmem
    · intro h3 c
      simp only [runDummyAux, h3]
      split
      · simp
      · intro hmem
        rcases hconv : D.conversation_history with _ | ch <;>
          rcases hfix : D.fix_parse_history with _ | fh <;>
          simp [hconv, hfix] at hmem <;>
          exact (ih (i + 1) _ (ti + 1)).2.2 h3 c hmem

theorem mle_missing_attr_aux {Obs Params Json : Type}
    (A : MleAgentM Obs Params Json) (E : EnvM Obs Params)
    (execution_timeout : Int) (clock : Nat → Int) (start : Int)
    (s : String)
    (hcase :
      (A.conversation_history = none ∧ s = "conversation_history") ∨
      (A.conversation_history ≠ none ∧ A.fix_parse_history = none ∧
        s = "fix_parse_history") ∨
      (A.conversation_history ≠ none ∧ A.fix_parse_history ≠ none ∧
        A.cost_history = none ∧ s = "cost_history")) :
    ∀ (r i : Nat) (obs : Option Obs) (ti : Nat),
      runMleAux A E execution_timeout clock start r i obs ti =
        Except.error (PyErr.attributeError s) ∨
      ∃ (rend : RunEnd) (tr : List (MEvent Json)),
        runMleAux A E execution_timeout clock start r i obs ti =
          Except.ok (rend, tr) ∧
        (∀ (j : Nat) (f : HFile) (c : Json), MEvent.persist j f c ∉ tr) ∧
        (∀ (j : Nat) (a : String) (rw : Int),
          MEvent.envStep j a rw ∉ tr) := by
  intro r i obs ti
  match r with
  | 0 =>
    exact Or.inr ⟨RunEnd.stepsExhausted, [], rfl, by simp, by simp⟩
  | Nat.succ n =>
    simp only [runMleAux]
    split
    · exact Or.inr ⟨_, _, rfl, by simp, by simp⟩
    · split
      · exact Or.inr ⟨_, _, rfl, by simp, by simp⟩
      · rcases hcase with ⟨h1, hs⟩ | ⟨h1, h2, hs⟩ | ⟨h1, h2, h3, hs⟩
        · rw [h1, hs]
          exact Or.inl rfl
        · obtain ⟨ch, hch⟩ := Option.ne_none_iff_exists'.mp h1
          rw [hch, h2, hs]
          exact Or.inl rfl
        · obtain ⟨ch, hch⟩ := Option.ne_none_iff_exists'.mp h1
          obtain ⟨fh, hfh⟩ := Option.ne_none_iff_exists'.mp h2
          rw [hch, hfh, h3, hs]
          exact Or.inl rfl

theorem oa_missing_attr_aux {Obs Params Json : Type}
    (A : OaAgentM Obs Params Json) (E : EnvM Obs Params)
    (execution_timeout : Int) (clock : Nat → Int) (start : Int)
    (s : String)
    (hcase :
      (A.history_to_save = none ∧ s = "history_to_save") ∨
      (A.history_to_save ≠ none ∧ A.fix_parse_history = none ∧
        s = "fix_parse_history") ∨
      (A.history_to_save ≠ none ∧ A.fix_parse_history ≠ none ∧
        A.cost_history = none ∧ s = "cost_history")) :
    ∀ (r i : Nat) (obs : Option Obs) (ti : Nat),
      runOaAux A E execution_timeout clock start r i obs ti =
        Except.error (PyErr.attributeError s) ∨
      ∃ (rend : RunEnd) (tr : List (MEvent Json)),
        runOaAux A E execution_timeout clock start r i obs ti =
          Except.ok (rend, tr) ∧
        (∀ (j : Nat) (f : HFile) (c : Json), MEvent.persist j f c ∉ tr) ∧
        (∀ (j : Nat) (a : String) (rw : Int),
          MEvent.envStep j a rw ∉ tr) := by
  intro r i obs ti
  match r with
  | 0 =>
    exact Or.inr ⟨RunEnd.stepsExhausted, [], rfl, by simp, by simp⟩
  | Nat.succ n =>
    simp only [runOaAux]
    split
    · exact Or.inr ⟨_, _, rfl, by simp, by simp⟩
    · split
      · exact Or.inr ⟨_, _, rfl, by simp, by simp⟩
      · rcases hcase with ⟨h1, hs⟩ | ⟨h1, h2, hs⟩ | ⟨h1, h2, h3, hs⟩
        · rw [h1, hs]
          exact Or.inl rfl
        · obtain ⟨ch, hch⟩ := Option.ne_none_iff_exists'.mp h1
          rw [hch, h2, hs]
          exact Or.inl rfl
        · obtain ⟨ch, hch⟩ := Option.ne_none_iff_exists'.mp h1
          obtain ⟨fh, hfh⟩ := Option.ne_none_iff_exists'.mp h2
          rw [hch, hfh, h3, hs]
          exact Or.inl rfl

/-- C9 (amended): only the dummy runner tolerates absence of the optional
history mappings — it probes each with `hasattr` independently, so any
one missing mapping is simply skipped (no persist event for that mapping
ever appears, whatever the other two are) and the run completes normally
(conjunct 1; the dummy runner's embedding is total, having no error
path).  The MLE and OpenAI runners access the mappings unconditionally:
with a missing mapping the run can never complete a persistence step —
whenever any iteration reaches the persistence step it raises the
`AttributeError` naming the first missing attribute in access order
(`conversation_history` / `history_to_save`, then `fix_parse_history`,
then `cost_history`), and the only runs that do not raise are those in
which no iteration ever reaches persistence, i.e. whose traces contain no
persist and no environment-step event at all (conjuncts 2-7).  When the
first action is a normal step action, the raise is unconditional
(conjunct 8). -/
theorem only_dummy_runner_tolerates_missing_histories :
    (∀ (Obs Params Json : Type) (D : DummyAgentM Obs Params Json)
       (E : EnvM Obs Params) (max_steps : Nat) (execution_timeout : Int)
       (clock : Nat → Int),
       (D.conversation_history = none → ∀ c : Json,
         DEvent.persist HFile.trajF c ∉
           (run_dummy_agent D E max_steps execution_timeout clock).2) ∧
       (D.fix_parse_history = none → ∀ c : Json,
         DEvent.persist HFile.fixF c ∉
           (run_dummy_agent D E max_steps execution_timeout clock).2) ∧
       (D.cost_history = none → ∀ c : Json,
         DEvent.persist HFile.costF c ∉
           (run_dummy_agent D E max_steps execution_timeout clock).2)) ∧
    (∀ (Obs Params Json : Type) (A : MleAgentM Obs Params Json)
       (E : EnvM Obs Params) (max_steps : Nat) (execution_timeout : Int)
       (clock : Nat → Int),
       A.conversation_history = none →
       run_mle_agent A E max_steps execution_timeout clock =
           Except.error (PyErr.attributeError "conversation_history") ∨
         ∃ (rend : RunEnd) (tr : List (MEvent Json)),
           run_mle_agent A E max_steps execution_timeout clock =
             Except.ok (rend, tr) ∧
           (∀ (j : Nat) (f : HFile) (c : Json),
             MEvent.persist j f c ∉ tr) ∧
           (∀ (j : Nat) (a : String) (rw : Int),
             MEvent.envStep j a rw ∉ tr)) ∧
    (∀ (Obs Params Json : Type) (A : MleAgentM Obs Params Json)
       (E : EnvM Obs Params) (max_steps : Nat) (execution_timeout : Int)
       (clock : Nat → Int),
       A.conversation_history ≠ none → A.fix_parse_history = none →
       run_mle_agent A E max_steps execution_timeout clock =
           Except.error (PyErr.attributeError "fix_parse_history") ∨
         ∃ (rend : RunEnd) (tr : List (MEvent Json)),
           run_mle_agent A E max_steps execution_timeout clock =
             Except.ok (rend, tr) ∧
           (∀ (j : Nat) (f : HFile) (c : Json),
             MEvent.persist j f c ∉ tr) ∧
           (∀ (j : Nat) (a : String) (rw : Int),
             MEvent.envStep j a rw ∉ tr)) ∧
    (∀ (Obs Params Json : Type) (A : MleAgentM Obs Params Json)
       (E : EnvM Obs Params) (max_steps : Nat) (execution_timeout : Int)
       (clock : Nat → Int),
       A.conversation_history ≠ none → A.fix_parse_history ≠ none →
       A.cost_history = none →
       run_mle_agent A E max_steps execution_timeout clock =
           Except.error (PyErr.attributeError "cost_history") ∨
         ∃ (rend : RunEnd) (tr : List (MEvent Json)),
           run_mle_agent A E max_steps execution_timeout clock =
             Except.ok (rend, tr) ∧
           (∀ (j : Nat) (f : HFile) (c : Json),
             MEvent.persist j f c ∉ tr) ∧
           (∀ (j : Nat) (a : String) (rw : Int),
             MEvent.envStep j a rw ∉ tr)) ∧
    (∀ (Obs Params Json : Type) (A : OaAgentM Obs Params Json)
       (E : EnvM Obs Params) (max_steps : Nat) (execution_timeout : Int)
       (clock : Nat → Int),
       A.history_to_save = none →
       run_openai_agent A E max_steps execution_timeout clock =
           Except.error (PyErr.attributeError "history_to_save") ∨
         ∃ (rend : RunEnd) (tr : List (MEvent Json)),
           run_openai_agent A E max_steps execution_timeout clock =
             Except.ok (rend, tr) ∧
           (∀ (j : Nat) (f : HFile) (c : Json),
             MEvent.persist j f c ∉ tr) ∧
           (∀ (j : Nat) (a : String) (rw : Int),
             MEvent.envStep j a rw ∉ tr)) ∧
    (∀ (Obs Params Json : Type) (A : OaAgentM Obs Params Json)
       (E : EnvM Obs Params) (max_steps : Nat) (execution_timeout : Int)
       (clock : Nat → Int),
       A.history_to_save ≠ none → A.fix_parse_history = none →
       run_openai_agent A E max_steps execution_timeout clock =
           Except.error (PyErr.attributeError "fix_parse_history") ∨
         ∃ (rend : RunEnd) (tr : List (MEvent Json)),
           run_openai_agent A E max_steps execution_timeout clock =
             Except.ok (rend, tr) ∧
           (∀ (j : Nat) (f : HFile) (c : Json),
             MEvent.persist j f c ∉ tr) ∧
           (∀ (j : Nat) (a : String) (rw : Int),
             MEvent.envStep j a rw ∉ tr)) ∧
    (∀ (Obs Params Json : Type) (A : OaAgentM Obs Params Json)
       (E : EnvM Obs Params) (max_steps : Nat) (execution_timeout : Int)
       (clock : Nat → Int),
       A.history_to_save ≠ none → A.fix_parse_history ≠ none →
       A.cost_history = none →
       run_openai_agent A E max_steps execution_timeout clock =
           Except.error (PyErr.attributeError "cost_history") ∨
         ∃ (rend : RunEnd) (tr : List (MEvent Json)),
           run_openai_agent A E max_steps execution_timeout clock =
             Except.ok (rend, tr) ∧
           (∀ (j : Nat) (f : HFile) (c : Json),
             MEvent.persist j f c ∉ tr) ∧
           (∀ (j : Nat) (a : String) (rw : Int),
             MEvent.envStep j a rw ∉ tr)) ∧
    (∀ (Obs Params Json : Type) (A : MleAgentM Obs Params Json)
       (E : EnvM Obs Params) (r : Nat) (execution_timeout : Int)
       (clock : Nat → Int),
       A.cost_history = none →
       A.conversation_history ≠ none →
       A.fix_parse_history ≠ none →
       (A.act none (r + 1)
           (max 0 (execution_timeout - (clock 1 - clock 0)))).1 ≠ "Error" →
       (A.act none (r + 1)
           (max 0 (execution_timeout - (clock 1 - clock 0)))).1 ≠ "End" →
       run_mle_agent A E (r + 1) execution_timeout clock =
         Except.error (PyErr.attributeError "cost_history")) := by
  refine ⟨?_, ?_, ?_, ?_, ?_, ?_, ?_, ?_⟩
  · intro Obs Params Json D E ms tmo clock
    exact dummy_skip_missing_aux D E tmo clock (clock 0) ms 0 none 1
  · intro Obs Params Json A E ms tmo clock h1
    exact mle_missing_attr_aux A E tmo clock (clock 0) "conversation_history"
      (Or.inl ⟨h1, rfl⟩) ms 0 none 1
  · intro Obs Params Json A E ms tmo clock h1 h2
    exact mle_missing_attr_aux A E tmo clock (clock 0) "fix_parse_history"
      (Or.inr (Or.inl ⟨h1, h2, rfl⟩)) ms 0 none 1
  · intro Obs Params Json A E ms tmo clock h1 h2 h3
    exact mle_missing_attr_aux A E tmo clock (clock 0) "cost_history"
      (Or.inr (Or.inr ⟨h1, h2, h3, rfl⟩)) ms 0 none 1
  · intro Obs Params Json A E ms tmo clock h1
    exact oa_missing_attr_aux A E tmo clock (clock 0) "history_to_save"
      (Or.inl ⟨h1, rfl⟩) ms 0 none 1
  · intro Obs Params Json A E ms tmo clock h1 h2
    exact oa_missing_attr_aux A E tmo clock (clock 0) "fix_parse_history"
      (Or.inr (Or.inl ⟨h1, h2, rfl⟩)) ms 0 none 1
  · intro Obs Params Json A E ms tmo clock h1 h2 h3
    exact oa_missing_attr_aux A E tmo clock (clock 0) "cost_history"
      (Or.inr (Or.inr ⟨h1, h2, h3, rfl⟩)) ms 0 none 1
  · intro Obs Params Json A E r tmo clock hc hch hfh hne hne2
    exact mle_missing_cost_raises A E r tmo clock hc hch hfh hne hne2

/-- C9 counterexample: the MLE runner on `exMleNoCostAgent` (which lacks
the `cost_history` attribute but chooses a normal step action) does not
skip the missing mapping: the run raises `AttributeError`, so the
persistence step does not complete without error — "for every agent
variant ... absence is tolerated" is false for the MLE runner. -/
theorem mle_runner_missing_history_errors_cex :
    run_mle_agent exMleNoCostAgent exEnv 1 100 exClock0 =
      Except.error (PyErr.attributeError "cost_history") := rfl

/-- C9 amended witness: the dummy run on the history-less
`exDummyEndAgent` persists nothing, and the concrete MLE and OpenAI runs
on the cost-less `exMleNoCostAgent` / `exOaNoCostAgent` satisfy the
raise-or-never-persist disjunction (and in fact raise, as the final
conjunct shows). -/
theorem only_dummy_runner_tolerates_missing_histories_witness :
    DEvent.persist HFile.trajF (3 : Nat) ∉
      (run_dummy_agent exDummyEndAgent exEnv 1 100 exClock0).2 ∧
    (run_mle_agent exMleNoCostAgent exEnv 1 100 exClock0 =
        Except.error (PyErr.attributeError "cost_history") ∨
      ∃ (rend : RunEnd) (tr : List (MEvent Nat)),
        run_mle_agent exMleNoCostAgent exEnv 1 100 exClock0 =
          Except.ok (rend, tr) ∧
        (∀ (j : Nat) (f : HFile) (c : Nat),
          MEvent.persist j f c ∉ tr) ∧
        (∀ (j : Nat) (a : String) (rw : Int),
          MEvent.envStep j a rw ∉ tr)) ∧
    (run_openai_agent exOaNoCostAgent exEnv 1 100 exClock0 =
        Except.error (PyErr.attributeError "cost_history") ∨
      ∃ (rend : RunEnd) (tr : List (MEvent Nat)),
        run_openai_agent exOaNoCostAgent exEnv 1 100 exClock0 =
          Except.ok (rend, tr) ∧
        (∀ (j : Nat) (f : HFile) (c : Nat),
          MEvent.persist j f c ∉ tr) ∧
        (∀ (j : Nat) (a : String) (rw : Int),
          MEvent.envStep j a rw ∉ tr)) ∧
    run_mle_agent exMleNoCostAgent exEnv 1 100 exClock0 =
      Except.error (PyErr.attributeError "cost_history") :=
  ⟨(only_dummy_runner_tolerates_missing_histories.1 Nat Nat Nat
      exDummyEndAgent exEnv 1 100 exClock0).1 rfl 3,
   only_dummy_runner_tolerates_missing_histories.2.2.2.1 Nat Nat Nat
      exMleNoCostAgent exEnv 1 100 exClock0 (by simp [exMleNoCostAgent])
      (by simp [exMleNoCostAgent]) rfl,
   only_dummy_runner_tolerates_missing_histories.2.2.2.2.2.2.1 Nat Nat Nat
      exOaNoCostAgent exEnv 1 100 exClock0 (by simp [exOaNoCostAgent])
      (by simp [exOaNoCostAgent]) rfl,
   only_dummy_runner_tolerates_missing_histories.2.2.2.2.2.2.2 Nat Nat Nat
      exMleNoCostAgent exEnv 0 100 exClock0 rfl (by simp [exMleNoCostAgent])
      (by simp [exMleNoCostAgent]) (by decide) (by decide)⟩

end MleRL